import Mathlib

/-!
Verification of the CloudCode control plane (naiba/cloudcode) against its
natural-language specification.

This file shallowly embeds the relevant parts of the Go server
(`internal/handler/handler.go`, `internal/store/store.go`,
`internal/config/config.go`, `internal/proxy` response rewriting,
`internal/docker` manager) and of the in-container prompt-drift watchdog
plugin (`internal/config/plugins/_cloudcode-prompt-watchdog.ts`, the variant
with temporal-line filtering) as executable Lean definitions, and proves or
refutes the frozen claims about them.

Modelling conventions:
* Texts and file contents are `List Char` (`Str`).  Go/JS strings are byte /
  UTF-16 sequences; all constants involved are ASCII so the difference is
  immaterial and noted where it could matter.
* Wall-clock time (`time.Now()`) is passed in explicitly as a `Nat` tick.
* The SQLite engine, the Docker engine and the Telegram API are third-party
  boundaries: the database is modelled as the list of rows the executed SQL
  statements maintain, engine calls are recorded as explicit operation values,
  and notifications are recorded as event values.
* JavaScript `Map`/`Set` values are modelled as insertion-ordered association
  lists with replace/insert-if-absent updates, matching Map.set/Set.add.
-/

set_option maxHeartbeats 4000000
set_option maxRecDepth 4000

/-- Character strings, modelled as lists of characters. -/
abbrev Str := List Char

/-- Opening brace character (written via its code point to keep it out of
string literals). -/
def lbrace : Char := Char.ofNat 123

/-- Closing brace character. -/
def rbrace : Char := Char.ofNat 125

/-- Double-quote character. -/
def dquote : Char := Char.ofNat 34

/-- Single-quote character. -/
def squote : Char := Char.ofNat 39

/-- ASCII decimal digit test. -/
def isDigitC (c : Char) : Bool := '0' ≤ c && c ≤ '9'

/-- ASCII letter/digit/underscore: the JavaScript regex word-character class
`\w` (with the `u` flag absent), used by `\b` word boundaries. -/
def isWordC (c : Char) : Bool :=
  isDigitC c || ('a' ≤ c && c ≤ 'z') || ('A' ≤ c && c ≤ 'Z') || c = '_'

/-- JavaScript `\s` whitespace class (ASCII part plus the Unicode space
characters enumerated by the ECMAScript spec). -/
def isJsSpace (c : Char) : Bool :=
  c = ' ' || c = '\t' || c = '\n' || c = '\x0d' || c = '\x0c' || c = '\x0b' ||
  c = '\xa0' || c = Char.ofNat 0x1680 ||
  (Char.ofNat 0x2000 ≤ c && c ≤ Char.ofNat 0x200a) ||
  c = Char.ofNat 0x2028 || c = Char.ofNat 0x2029 || c = Char.ofNat 0x202f ||
  c = Char.ofNat 0x205f || c = Char.ofNat 0x3000 || c = Char.ofNat 0xfeff

/-- Go `\s` whitespace class (`[\t\n\f\r ]`), used by the JSONC
comment-stripping regexes in `config.go`. -/
def isGoSpace (c : Char) : Bool :=
  c = ' ' || c = '\t' || c = '\n' || c = '\x0c' || c = '\x0d'

/-- JavaScript `String.prototype.trim`: strip `\s` from both ends. -/
def trimJS (s : Str) : Str :=
  ((s.dropWhile isJsSpace).reverse.dropWhile isJsSpace).reverse

/-- ASCII lower-casing of one character (`bytes.ToLower` /
`String.prototype.toLowerCase` restricted to the ASCII range, which covers
every pattern constant in the sources). -/
def lowerC (c : Char) : Char :=
  if 'A' ≤ c && c ≤ 'Z' then Char.ofNat (c.toNat + 32) else c

/-- Lower-case a string character-wise. -/
def lowerS (s : Str) : Str := s.map lowerC

/-- `startsWithL needle hay`: `needle` is a prefix of `hay`. -/
def startsWithL : Str → Str → Bool
  | [], _ => true
  | _ :: _, [] => false
  | a :: as, b :: bs => a = b && startsWithL as bs

/-- `containsSub hay needle`: `needle` occurs as a contiguous substring. -/
def containsSub : Str → Str → Bool
  | hay, needle =>
    match hay with
    | [] => startsWithL needle []
    | _ :: rest => startsWithL needle hay || containsSub rest needle

/-- Index of the first occurrence of `needle` in `hay`, if any. -/
def firstOccur : Str → Str → Option Nat
  | hay, needle =>
    match hay with
    | [] => if startsWithL needle [] then some 0 else none
    | _ :: rest =>
      if startsWithL needle hay then some 0
      else (firstOccur rest needle).map (· + 1)

/-- Split a text on newline characters (JS `text.split("\n")`,
Go-side splitting is not needed).  Always returns at least one line. -/
def splitNl (s : Str) : List Str :=
  match s with
  | [] => [[]]
  | c :: rest =>
    let tl := splitNl rest
    if c = '\n' then [] :: tl
    else
      match tl with
      | [] => [[c]]
      | l :: ls => (c :: l) :: ls

/-- Join lines with newline characters (JS `lines.join("\n")`). -/
def joinNl : List Str → Str
  | [] => []
  | [l] => l
  | l :: ls => l ++ '\n' :: joinNl ls

/-- Decimal rendering of a natural number (for `%d` / template literals),
with explicit fuel so that it reduces in the kernel. -/
def natDigits : Nat → Nat → Str
  | 0, _ => []
  | fuel + 1, n =>
    if n < 10 then [Char.ofNat (48 + n)]
    else natDigits fuel (n / 10) ++ [Char.ofNat (48 + n % 10)]

/-- Decimal rendering of a natural number. -/
def natToStr (n : Nat) : Str := natDigits (n + 1) n

/-! ## Association-list maps (JS `Map`, Go `map` where order is irrelevant) -/

/-- Lookup in an insertion-ordered association map. -/
def alookup {α : Type} : List (Str × α) → Str → Option α
  | [], _ => none
  | (k, v) :: rest, key => if k = key then some v else alookup rest key

/-- `Map.set`: replace in place if the key is present, else append. -/
def aset {α : Type} : List (Str × α) → Str → α → List (Str × α)
  | [], key, v => [(key, v)]
  | (k, w) :: rest, key, v =>
    if k = key then (k, v) :: rest else (k, w) :: aset rest key v

/-- `Set.add` on a list-modelled set: append if absent. -/
def sadd (s : List Str) (x : Str) : List Str :=
  if x ∈ s then s else s ++ [x]

/-- Add every element of `xs` to the set. -/
def saddAll (s : List Str) (xs : List Str) : List Str :=
  xs.foldl sadd s

/-! ## Port Pool (`internal/handler/handler.go`, `PortPool`) -/

/-- `PortPool` from `handler.go`: fixed inclusive range plus the set of
used ports (`map[int]bool`, modelled as a duplicate-free list). -/
structure PortPool where
  start : Nat
  stop : Nat  -- `end` in the source; `end` is reserved in Lean
  used : List Nat
deriving DecidableEq, Repr

/-- `NewPortPool(start, end)`. -/
def newPortPool (a b : Nat) : PortPool := ⟨a, b, []⟩

/-- The linear scan inside `PortPool.Allocate`: first `p` in
`[p₀, p₀+fuel)` not in `used`. -/
def allocScan (used : List Nat) : Nat → Nat → Option Nat
  | 0, _ => none
  | fuel + 1, p => if p ∈ used then allocScan used fuel (p + 1) else some p

/-- `PortPool.Allocate`: scan from the low end, mark the first unused port
used, or fail with the `"no available ports"` error. -/
def PortPool.allocate (pp : PortPool) : Except Str (Nat × PortPool) :=
  match allocScan pp.used (pp.stop + 1 - pp.start) pp.start with
  | some p => .ok (p, { pp with used := if p ∈ pp.used then pp.used else p :: pp.used })
  | none =>
    .error ("no available ports in range ".data ++ natToStr pp.start ++
      "-".data ++ natToStr pp.stop)

/-- `PortPool.Release`: `delete(pp.used, port)`. -/
def PortPool.release (pp : PortPool) (port : Nat) : PortPool :=
  { pp with used := pp.used.filter (fun q => q ≠ port) }

/-- `PortPool.MarkUsed`: `pp.used[port] = true`. -/
def PortPool.markUsed (pp : PortPool) (port : Nat) : PortPool :=
  { pp with used := if port ∈ pp.used then pp.used else port :: pp.used }

/-- Run `n` successive allocations, collecting each outcome. -/
def allocN : Nat → PortPool → List (Except Str Nat) × PortPool
  | 0, pp => ([], pp)
  | n + 1, pp =>
    match pp.allocate with
    | .ok (p, pp') =>
      let (rs, ppf) := allocN n pp'
      (.ok p :: rs, ppf)
    | .error e => ((Except.error e) :: (allocN n pp).1, (allocN n pp).2)

/-! ## JSON (Go `encoding/json`, used by the Store and by `config.go`)

The repository marshals/unmarshals JSON with the Go standard library:
`store.go` serializes `EnvVars` (`map[string]string`) into the `env_vars`
TEXT column, and `config.go` parses `opencode.jsonc` (after comment
stripping) into `map[string]any` and rewrites it with `MarshalIndent`.

JSON numbers are decoded by Go into `float64` and re-rendered on marshal;
here the numeral lexeme is kept verbatim (no claim depends on float
re-formatting).  Go maps are unordered with last-duplicate-wins decoding
and key-sorted (byte order = code-point order) encoding; objects are
modelled as association lists built with replace-on-duplicate insertion
and sorted by key when marshalled. -/

inductive Json where
  | str (s : Str)
  | num (lexeme : Str)
  | jbool (b : Bool)
  | null
  | arr (elems : List Json)
  | obj (members : List (Str × Json))

/-- Go JSON whitespace (`space \t \n \r`). -/
def isJsonWs (c : Char) : Bool := c = ' ' || c = '\t' || c = '\n' || c = '\x0d'

/-- Skip JSON whitespace. -/
def skipWsJ (s : Str) : Str := s.dropWhile isJsonWs

/-- Lower-case hex digit for code point `n < 16` (Go emits lowercase). -/
def hexDigitC (n : Nat) : Char :=
  if n < 10 then Char.ofNat (48 + n) else Char.ofNat (87 + n)

/-- Four-digit hex rendering of `n < 0x10000`. -/
def hex4 (n : Nat) : Str :=
  [hexDigitC (n / 4096 % 16), hexDigitC (n / 256 % 16),
   hexDigitC (n / 16 % 16), hexDigitC (n % 16)]

/-- Go `encoding/json` escaping of one character (HTML escaping on, the
default used by `json.Marshal` / `json.MarshalIndent`). -/
def escChar (c : Char) : Str :=
  if c = dquote then ['\\', dquote]
  else if c = '\\' then ['\\', '\\']
  else if c = '\n' then ['\\', 'n']
  else if c = '\x0d' then ['\\', 'r']
  else if c = '\t' then ['\\', 't']
  else if c.toNat < 32 then '\\' :: 'u' :: hex4 c.toNat
  else if c = '<' || c = '>' || c = '&' then '\\' :: 'u' :: hex4 c.toNat
  else if c.toNat = 0x2028 || c.toNat = 0x2029 then '\\' :: 'u' :: hex4 c.toNat
  else [c]

/-- Escape a whole string body. -/
def escStr (s : Str) : Str := (s.map escChar).flatten

/-- A JSON string literal: quote, escaped body, quote. -/
def quoteStr (s : Str) : Str := dquote :: escStr s ++ [dquote]

/-- Code-point (= UTF-8 byte order) comparison used by Go when sorting the
keys of a marshalled map. -/
def strLt : Str → Str → Bool
  | [], [] => false
  | [], _ :: _ => true
  | _ :: _, [] => false
  | a :: as, b :: bs => if a = b then strLt as bs else decide (a < b)

/-- Insert into a key-sorted association list. -/
def insertSortedKV {α : Type} (p : Str × α) : List (Str × α) → List (Str × α)
  | [] => [p]
  | q :: rest => if strLt p.1 q.1 then p :: q :: rest else q :: insertSortedKV p rest

/-- Sort an association list by key (Go marshals map keys in sorted order). -/
def sortByKey {α : Type} : List (Str × α) → List (Str × α)
  | [] => []
  | p :: rest => insertSortedKV p (sortByKey rest)

/-- Indentation produced by `MarshalIndent(v, "", "  ")` at nesting level
`lvl`. -/
def indentOf (lvl : Nat) : Str := (List.replicate lvl "  ".data).flatten

/-- `json.MarshalIndent(v, "", "  ")`.  The fuel bounds the nesting depth
and is always instantiated above the depth of the value at hand, so the
rendering is the complete one. -/
def marshalI : Nat → Nat → Json → Str
  | 0, _, _ => []
  | fuel + 1, lvl, v =>
    match v with
    | .str s => quoteStr s
    | .num l => l
    | .jbool b => if b then "true".data else "false".data
    | .null => "null".data
    | .arr [] => "[]".data
    | .arr xs =>
      '[' :: '\n' ::
        (List.intersperse (",\n".data)
          (xs.map (fun x => indentOf (lvl + 1) ++ marshalI fuel (lvl + 1) x))).flatten ++
        '\n' :: indentOf lvl ++ [']']
    | .obj [] => [lbrace, rbrace]
    | .obj kvs =>
      lbrace :: '\n' ::
        (List.intersperse (",\n".data)
          ((sortByKey kvs).map (fun kv =>
            indentOf (lvl + 1) ++ quoteStr kv.1 ++ ':' :: ' ' ::
              marshalI fuel (lvl + 1) kv.2))).flatten ++
        '\n' :: indentOf lvl ++ [rbrace]

/-- Hex digit value. -/
def hexValC (c : Char) : Option Nat :=
  if isDigitC c then some (c.toNat - 48)
  else if 'a' ≤ c && c ≤ 'f' then some (c.toNat - 87)
  else if 'A' ≤ c && c ≤ 'F' then some (c.toNat - 55)
  else none

/-- Decode four hex digits. -/
def hex4Val : Str → Option (Nat × Str)
  | a :: b :: c :: d :: rest =>
    match hexValC a, hexValC b, hexValC c, hexValC d with
    | some x, some y, some z, some w => some (((x * 16 + y) * 16 + z) * 16 + w, rest)
    | _, _, _, _ => none
  | _ => none

/-- JSON string body parser (the opening quote is already consumed).
One unit of fuel per decoded character; raw control characters and invalid
escapes are rejected, `\uXXXX` surrogate pairs are combined and lone
surrogates decode to U+FFFD, as in Go. -/
def pStrF : Nat → Str → Option (Str × Str)
  | 0, _ => none
  | fuel + 1, s =>
    match s with
    | [] => none
    | c :: rest =>
      if c = dquote then some ([], rest)
      else if c = '\\' then
        match rest with
        | [] => none
        | e :: r2 =>
          if e = dquote || e = '\\' || e = '/' then
            (pStrF fuel r2).map (fun p => ((if e = '/' then '/' else e) :: p.1, p.2))
          else if e = 'b' then (pStrF fuel r2).map (fun p => ('\x08' :: p.1, p.2))
          else if e = 'f' then (pStrF fuel r2).map (fun p => ('\x0c' :: p.1, p.2))
          else if e = 'n' then (pStrF fuel r2).map (fun p => ('\n' :: p.1, p.2))
          else if e = 'r' then (pStrF fuel r2).map (fun p => ('\x0d' :: p.1, p.2))
          else if e = 't' then (pStrF fuel r2).map (fun p => ('\t' :: p.1, p.2))
          else if e = 'u' then
            match hex4Val r2 with
            | none => none
            | some (h, r3) =>
              if 0xd800 ≤ h && h < 0xdc00 then
                match r3 with
                | '\\' :: 'u' :: r4 =>
                  match hex4Val r4 with
                  | some (h2, r5) =>
                    if 0xdc00 ≤ h2 && h2 < 0xe000 then
                      (pStrF fuel r5).map (fun p =>
                        (Char.ofNat (0x10000 + (h - 0xd800) * 0x400 + (h2 - 0xdc00)) :: p.1, p.2))
                    else (pStrF fuel r3).map (fun p => (Char.ofNat 0xfffd :: p.1, p.2))
                  | none => (pStrF fuel r3).map (fun p => (Char.ofNat 0xfffd :: p.1, p.2))
                | _ => (pStrF fuel r3).map (fun p => (Char.ofNat 0xfffd :: p.1, p.2))
              else if 0xdc00 ≤ h && h < 0xe000 then
                (pStrF fuel r3).map (fun p => (Char.ofNat 0xfffd :: p.1, p.2))
              else (pStrF fuel r3).map (fun p => (Char.ofNat h :: p.1, p.2))
          else none
      else if c.toNat < 32 then none
      else (pStrF fuel rest).map (fun p => (c :: p.1, p.2))

/-- JSON string parser entry point (opening quote consumed). -/
def pStr (s : Str) : Option (Str × Str) := pStrF (s.length + 1) s

/-- JSON number lexeme (Go grammar: `-? (0|[1-9][0-9]*) (\.[0-9]+)?
([eE][+-]?[0-9]+)?`); returns the lexeme and the rest. -/
def pNum (s : Str) : Option (Str × Str) :=
  let (neg, s1) : Str × Str :=
    match s with
    | '-' :: r => (['-'], r)
    | _ => ([], s)
  match s1 with
  | [] => none
  | c :: rest =>
    if c = '0' then
      let (ip, s2) := (['0'], rest)
      pNumFrac neg ip s2
    else if isDigitC c then
      let ds := rest.takeWhile isDigitC
      pNumFrac neg (c :: ds) (rest.drop ds.length)
    else none
where
  pNumFrac (neg ip : Str) (s2 : Str) : Option (Str × Str) :=
    let (fp, s3) : Str × Str :=
      match s2 with
      | '.' :: r =>
        let ds := r.takeWhile isDigitC
        if ds = [] then ([' '], s2)  -- marker for failure, checked below
        else ('.' :: ds, r.drop ds.length)
      | _ => ([], s2)
    if fp = [' '] then none
    else
      match s3 with
      | e :: r =>
        if e = 'e' || e = 'E' then
          let (sg, r2) : Str × Str :=
            match r with
            | '+' :: rr => (['+'], rr)
            | '-' :: rr => (['-'], rr)
            | _ => ([], r)
          let ds := r2.takeWhile isDigitC
          if ds = [] then none
          else some (neg ++ ip ++ fp ++ e :: sg ++ ds, r2.drop ds.length)
        else some (neg ++ ip ++ fp, s3)
      | [] => some (neg ++ ip ++ fp, s3)

mutual
/-- JSON value parser; fuel bounds the recursion and is instantiated from
the input length (every recursive step consumes at least one character). -/
def pVal : Nat → Str → Option (Json × Str)
  | 0, _ => none
  | fuel + 1, s =>
    match s with
    | [] => none
    | c :: rest =>
      if c = dquote then (pStr rest).map (fun p => (Json.str p.1, p.2))
      else if c = lbrace then pObjM fuel (skipWsJ rest) []
      else if c = '[' then pArr fuel (skipWsJ rest)
      else if c = 't' then
        if startsWithL "rue".data rest then some (.jbool true, rest.drop 3) else none
      else if c = 'f' then
        if startsWithL "alse".data rest then some (.jbool false, rest.drop 4) else none
      else if c = 'n' then
        if startsWithL "ull".data rest then some (.null, rest.drop 3) else none
      else if c = '-' || isDigitC c then (pNum s).map (fun p => (Json.num p.1, p.2))
      else none

/-- Array tail parser: the opening `[` and leading whitespace are consumed. -/
def pArr : Nat → Str → Option (Json × Str)
  | 0, _ => none
  | fuel + 1, s =>
    match s with
    | ']' :: r => some (.arr [], r)
    | _ => pArrElems fuel s []

/-- Array elements (at least one). -/
def pArrElems : Nat → Str → List Json → Option (Json × Str)
  | 0, _, _ => none
  | fuel + 1, s, acc =>
    match pVal fuel s with
    | none => none
    | some (v, r) =>
      match skipWsJ r with
      | ',' :: r2 => pArrElems fuel (skipWsJ r2) (acc ++ [v])
      | ']' :: r2 => some (.arr (acc ++ [v]), r2)
      | _ => none

/-- Object members; the opening brace and leading whitespace are consumed.
Duplicate keys overwrite earlier ones as with decoding into a Go map. -/
def pObjM : Nat → Str → List (Str × Json) → Option (Json × Str)
  | 0, _, _ => none
  | fuel + 1, s, acc =>
    match s with
    | c :: r =>
      if c = rbrace && acc.isEmpty then some (.obj [], r)
      else if c = dquote then
        match pStr r with
        | none => none
        | some (k, r2) =>
          match skipWsJ r2 with
          | ':' :: r3 =>
            match pVal fuel (skipWsJ r3) with
            | none => none
            | some (v, r4) =>
              match skipWsJ r4 with
              | ',' :: r5 =>
                match skipWsJ r5 with
                | c2 :: r6 =>
                  if c2 = dquote then pObjM fuel (c2 :: r6) (aset acc k v)
                  else none
                | [] => none
              | c2 :: r5 =>
                if c2 = rbrace then some (.obj (aset acc k v), r5) else none
              | [] => none
          | _ => none
      else none
    | [] => none
end

/-- `json.Unmarshal` of a whole text: parse one value, insist the remainder
is whitespace. -/
def jsonParse (s : Str) : Option Json :=
  match pVal (s.length + 1) (skipWsJ s) with
  | some (v, rest) => if skipWsJ rest = [] then some v else none
  | none => none

/-- `json.Marshal` of a `map[string]string` (compact, keys sorted). -/
def envMarshal (m : List (Str × Str)) : Str :=
  lbrace ::
    (List.intersperse [',']
      ((sortByKey m).map (fun kv => quoteStr kv.1 ++ ':' :: quoteStr kv.2))).flatten ++
    [rbrace]

/-- Convert a parsed JSON object into a string map; fails when any value is
not a string (as `json.Unmarshal` into `map[string]string` does). -/
def envFromJson : List (Str × Json) → Option (List (Str × Str))
  | [] => some []
  | (k, v) :: rest =>
    match v with
    | .str s => (envFromJson rest).map (fun e => (k, s) :: e)
    | _ => none

/-- `json.Unmarshal(data, &map[string]string)`. -/
def envUnmarshal (s : Str) : Option (List (Str × Str)) :=
  match jsonParse s with
  | some (.obj kvs) => envFromJson kvs
  | _ => none

/-! ## Persistent Instance Store (`internal/store/store.go`)

The SQLite engine is a third-party boundary; the table is modelled as the
list of rows maintained by the executed SQL statements.  The `id` column is
the primary key and `name` carries a UNIQUE constraint, so an INSERT fails
exactly when either collides.  `time.Now()` is an explicit `Nat` tick. -/

/-- `store.Instance`. -/
structure Instance where
  id : Str
  name : Str
  containerID : Str
  status : Str
  errorMsg : Str
  port : Nat
  workDir : Str
  envVars : List (Str × Str)
  createdAt : Nat
  updatedAt : Nat
deriving DecidableEq, Repr

/-- One row of the `instances` table (`env_vars` is a JSON TEXT column). -/
structure Row where
  id : Str
  name : Str
  containerID : Str
  status : Str
  errorMsg : Str
  port : Nat
  workDir : Str
  envVars : Str
  createdAt : Nat
  updatedAt : Nat
deriving DecidableEq, Repr

/-- The `instances` table. -/
abbrev StoreDB := List Row

/-- `Store.Create`: marshal `EnvVars`, stamp `CreatedAt`/`UpdatedAt` to now,
INSERT; `none` models the write failing on the `id` primary key or the
`name` UNIQUE constraint. -/
def storeCreate (db : StoreDB) (inst : Instance) (now : Nat) :
    Option (StoreDB × Instance) :=
  let inst' := { inst with createdAt := now, updatedAt := now }
  if db.any (fun r => r.id = inst.id || r.name = inst.name) then none
  else
    let row : Row :=
      { id := inst'.id, name := inst'.name,
        containerID := inst'.containerID, status := inst'.status,
        errorMsg := inst'.errorMsg, port := inst'.port, workDir := inst'.workDir,
        envVars := envMarshal inst'.envVars,
        createdAt := inst'.createdAt, updatedAt := inst'.updatedAt }
    some (db ++ [row], inst')

/-- `scanInstance`: read a row back, unmarshalling `env_vars`. -/
def scanInstanceRow (r : Row) : Option Instance :=
  (envUnmarshal r.envVars).map (fun env =>
    { id := r.id, name := r.name, containerID := r.containerID,
      status := r.status, errorMsg := r.errorMsg, port := r.port,
      workDir := r.workDir, envVars := env,
      createdAt := r.createdAt, updatedAt := r.updatedAt })

/-- `Store.Get`: point lookup by id. -/
def storeGet (db : StoreDB) (id : Str) : Option Instance :=
  match db.find? (fun r => r.id = id) with
  | some r => scanInstanceRow r
  | none => none

/-- `Store.GetByName`: point lookup by name. -/
def storeGetByName (db : StoreDB) (name : Str) : Option Instance :=
  match db.find? (fun r => r.name = name) with
  | some r => scanInstanceRow r
  | none => none

/-- `Store.Update`: overwrite all mutable columns by id, stamping
`UpdatedAt` to now (`created_at` is not in the SET list). -/
def storeUpdate (db : StoreDB) (inst : Instance) (now : Nat) :
    StoreDB × Instance :=
  let inst' := { inst with updatedAt := now }
  (db.map (fun r =>
    if r.id = inst.id then
      { r with
        name := inst'.name, containerID := inst'.containerID,
        status := inst'.status, errorMsg := inst'.errorMsg,
        port := inst'.port, workDir := inst'.workDir,
        envVars := envMarshal inst'.envVars, updatedAt := now }
    else r), inst')

/-- `Store.Delete`: DELETE by id (idempotent). -/
def storeDelete (db : StoreDB) (id : Str) : StoreDB :=
  db.filter (fun r => r.id ≠ id)

/-! ## Instruction-file registration (`internal/config/config.go`)

`ensureInstruction` reads `opencode.jsonc` raw, checks for an existing
quoted reference, strips JSONC comments with four regex passes, parses the
result into `map[string]any`, appends the instructions path to the
`instructions` array and rewrites the file as indented JSON. -/

/-- Absolute in-container path of the instructions file, the argument
`ensureInstructionsFile` passes to `ensureInstruction`. -/
def instrPath : Str := "/root/.config/opencode/_cloudcode-instructions.md".data

/-- The quick check `regexp.MustCompile("[\"']" + regexp.QuoteMeta(filename)
+ "[\"']").MatchString(content)`: the filename, surrounded by either quote
character, occurs somewhere in the raw text. -/
def hasQuotedRef (c : Str) (filename : Str) : Bool :=
  containsSub c (dquote :: filename ++ [dquote]) ||
  containsSub c (dquote :: filename ++ [squote]) ||
  containsSub c (squote :: filename ++ [dquote]) ||
  containsSub c (squote :: filename ++ [squote])

/-- First pass of `stripJSONCComments`: `(?m)^(\s*)//.*$` → `$1`.  A line
whose content after leading whitespace starts with `//` is reduced to that
whitespace (the multiline regex with its `(\s*)` capture is equivalent to
this per-line transform). -/
def stripLineComment (line : Str) : Str :=
  let ws := line.takeWhile isGoSpace
  if startsWithL "//".data (line.drop ws.length) then ws else line

/-- Apply the first comment-stripping pass line by line. -/
def stripPass1 (s : Str) : Str := joinNl ((splitNl s).map stripLineComment)

/-- No newline occurs (RE2 `.` does not match `\n` and `$` without the `m`
flag anchors at end of text, so the second pass can only fire when the `//`
sits on the final line). -/
def noNlAfter (s : Str) : Bool := s.all (fun c => c ≠ '\n')

/-- Scan to the next double quote: `("inside", after)`. -/
def findDQuote : Str → Option (Str × Str)
  | [] => none
  | c :: rest =>
    if c = dquote then some ([], rest)
    else (findDQuote rest).map (fun p => (c :: p.1, p.2))

/-- Second pass: `("[^"]*"|[^/])//.*$` → `$1` (no `m` flag: at most one
match, reaching the end of the text).  At each position the quoted
alternative is preferred; Go replaces the leftmost match. -/
def stripPass2 : Str → Str
  | [] => []
  | c :: rest =>
    if c = dquote then
      match findDQuote rest with
      | some (inside, after) =>
        if startsWithL "//".data after && noNlAfter (after.drop 2) then
          c :: inside ++ [dquote]
        else if startsWithL "//".data rest && noNlAfter (rest.drop 2) then [c]
        else c :: stripPass2 rest
      | none =>
        if startsWithL "//".data rest && noNlAfter (rest.drop 2) then [c]
        else c :: stripPass2 rest
    else if c ≠ '/' && startsWithL "//".data rest && noNlAfter (rest.drop 2) then [c]
    else c :: stripPass2 rest

/-- Scan past the closing `*/` of a block comment. -/
def findBlockClose : Str → Option Str
  | [] => none
  | c :: rest =>
    if c = '*' && startsWithL "/".data rest then some (rest.drop 1)
    else findBlockClose rest

/-- Third pass: `(?s)/\*.*?\*/` → `""` (remove each block comment up to the
nearest closing `*/`). -/
def stripPass3 : Nat → Str → Str
  | 0, s => s
  | fuel + 1, s =>
    match s with
    | [] => []
    | c :: rest =>
      if c = '/' && startsWithL "*".data rest then
        match findBlockClose (rest.drop 1) with
        | some after => stripPass3 fuel after
        | none => c :: stripPass3 fuel rest
      else c :: stripPass3 fuel rest

/-- Fourth pass: `,\s*([}\]])` → `$1` (drop trailing commas). -/
def stripPass4 : Nat → Str → Str
  | 0, s => s
  | fuel + 1, s =>
    match s with
    | [] => []
    | c :: rest =>
      if c = ',' then
        let ws := rest.takeWhile isGoSpace
        match rest.drop ws.length with
        | b :: r2 =>
          if b = rbrace || b = ']' then b :: stripPass4 fuel r2
          else c :: stripPass4 fuel rest
        | [] => c :: stripPass4 fuel rest
      else c :: stripPass4 fuel rest

/-- `stripJSONCComments` from `config.go`: the four passes in order. -/
def stripJSONCComments (s : Str) : Str :=
  let s1 := stripPass1 s
  let s2 := stripPass2 s1
  let s3 := stripPass3 (s2.length + 1) s2
  stripPass4 (s3.length + 1) s3

/-- Outcome of one `ensureInstruction` call on a given file content.
`panicked` models the Go runtime panic `assignment to entry in nil map`
at `cfg["instructions"] = instructions`: the process crashes before any
write. -/
inductive EnsureOutcome where
  | unchanged
  | written (content : Str)
  | panicked
deriving DecidableEq

/-- The `"instructions"` key. -/
def instructionsKey : Str := "instructions".data

/-- Result of `json.Unmarshal(stripped, &cfg)` with `cfg : map[string]any`:
a top-level object fills a non-nil map, a top-level `null` succeeds while
leaving `cfg` the nil map, and every other document is an error. -/
inductive UnmarshalCfg where
  | err
  | nilMap
  | objMap (kvs : List (Str × Json))

/-- `json.Unmarshal(stripped, &cfg)` with `cfg : map[string]any`. -/
def parseTopObj (s : Str) : UnmarshalCfg :=
  match jsonParse s with
  | some (.obj kvs) => .objMap kvs
  | some .null => .nilMap
  | _ => .err

/-- The patch step: take the existing `instructions` array (ignoring a
non-array value), append the filename, store it back. -/
def patchInstructions (filename : Str) (kvs : List (Str × Json)) :
    List (Str × Json) :=
  let existing : List Json :=
    match alookup kvs instructionsKey with
    | some (.arr xs) => xs
    | _ => []
  aset kvs instructionsKey (.arr (existing ++ [.str filename]))

/-- `ensureInstruction` as a function of the current `opencode.jsonc`
content (a missing file reads as the empty string).  An Unmarshal error on
a nonempty stripped content returns without writing; a stripped content
that is a bare `null` leaves `cfg` the nil map and the later
`cfg["instructions"] = instructions` assignment panics.  The marshalling
fuel `stripped.length + 3` exceeds the nesting depth of any value parsed
from `stripped` (each nesting level consumes at least one character) plus
the one level the patch can add, so the rendering is complete. -/
def ensureInstruction (filename : Str) (c : Str) : EnsureOutcome :=
  if hasQuotedRef c filename then .unchanged
  else
    let stripped := stripJSONCComments c
    if stripped.length > 0 then
      match parseTopObj stripped with
      | .err => .unchanged
      | .nilMap => .panicked
      | .objMap kvs =>
        .written (marshalI (stripped.length + 3) 0 (.obj (patchInstructions filename kvs)))
    else .written (marshalI 3 0 (.obj (patchInstructions filename [])))

/-- Resulting on-disk file content after one `ensureInstruction` call (a
panic crashes the process before any write, leaving the file as it was). -/
def applyEnsure (filename : Str) (c : Str) : Str :=
  match ensureInstruction filename c with
  | .unchanged => c
  | .written t => t
  | .panicked => c

/-- Number of occurrences of `filename` among the string elements of the
`instructions` array of a parsed config object. -/
def countInstrPath (filename : Str) (kvs : List (Str × Json)) : Nat :=
  match alookup kvs instructionsKey with
  | some (.arr xs) =>
    (xs.filter (fun v => match v with | .str t => t = filename | _ => false)).length
  | _ => 0

/-! ## Prompt-drift watchdog plugin
(`internal/config/plugins/_cloudcode-prompt-watchdog.ts`, temporal-filtering
variant)

The seven `temporalPatterns` regexes are embedded as anchored matchers with
JavaScript backtracking semantics (leftmost match, first-alternative
preference, greedy quantifiers).  Each matcher takes the character
preceding the current position (for `\b`) and the text at the position, and
returns the rest after a match.  `String.prototype.match`/`replace` with a
`/g` regex is the left-to-right non-overlapping scan `scanPat` below.
`charCodeAt` yields UTF-16 units and JS string lengths count UTF-16 units;
`Char`-based counting agrees on all BMP text. -/

/-- Exactly `n` decimal digits. -/
def dExact : Nat → Str → Option Str
  | 0, s => some s
  | n + 1, c :: rest => if isDigitC c then dExact n rest else none
  | _ + 1, [] => none

/-- `\d{1,2}:` with greedy backtracking (two digits preferred). -/
def hhColon (s : Str) : Option Str :=
  match dExact 2 s with
  | some (':' :: r) => some r
  | _ =>
    match dExact 1 s with
    | some (':' :: r) => some r
    | _ => none

/-- `(:\d{2})?`. -/
def optSeconds (s : Str) : Str :=
  match s with
  | ':' :: r =>
    match dExact 2 r with
    | some r2 => r2
    | none => s
  | _ => s

/-- `(\.\d+)?`. -/
def optFrac (s : Str) : Str :=
  match s with
  | '.' :: r =>
    let ds := r.takeWhile isDigitC
    if ds.isEmpty then s else r.drop ds.length
  | _ => s

/-- `(Z|[+-]\d{2}:?\d{2})?`. -/
def optTz (s : Str) : Str :=
  match s with
  | [] => s
  | 'Z' :: r => r
  | c :: r =>
    if c = '+' || c = '-' then
      match dExact 2 r with
      | some (':' :: r3) =>
        match dExact 2 r3 with
        | some r4 => r4
        | none => s
      | some r2 =>
        match dExact 2 r2 with
        | some r4 => r4
        | none => s
      | none => s
    else s

/-- Pattern 1: ISO date-time
`\d{4}-\d{2}-\d{2}[T ]\d{1,2}:\d{2}(:\d{2})?(\.\d+)?(Z|[+-]\d{2}:?\d{2})?`. -/
def matchIso (s : Str) : Option Str :=
  match dExact 4 s with
  | some ('-' :: r1) =>
    match dExact 2 r1 with
    | some ('-' :: r2) =>
      match dExact 2 r2 with
      | some (c :: r3) =>
        if c = 'T' || c = ' ' then
          match hhColon r3 with
          | some r4 =>
            match dExact 2 r4 with
            | some r5 => some (optTz (optFrac (optSeconds r5)))
            | none => none
          | none => none
        else none
      | _ => none
    | _ => none
  | _ => none

/-- Pattern 2: time of day `\d{1,2}:\d{2}(:\d{2})?\s*(AM|PM|am|pm)?`
(the greedy `\s*` is part of the match even when no meridiem follows). -/
def matchTime (s : Str) : Option Str :=
  match hhColon s with
  | some r =>
    match dExact 2 r with
    | some r2 =>
      let r3 := optSeconds r2
      let r4 := r3.drop (r3.takeWhile isJsSpace).length
      if startsWithL "AM".data r4 || startsWithL "PM".data r4 ||
          startsWithL "am".data r4 || startsWithL "pm".data r4 then
        some (r4.drop 2)
      else some r4
    | none => none
  | none => none

/-- A date separator: dash or slash. -/
def isSep (c : Char) : Bool := c = '-' || c = '/'

/-- `\d{1,2}` followed by a dash-or-slash separator, greedy backtracking. -/
def d12sep (s : Str) : Option Str :=
  match dExact 2 s with
  | some (c :: r) =>
    if isSep c then some r
    else
      match dExact 1 s with
      | some (c2 :: r2) => if isSep c2 then some r2 else none
      | _ => none
  | _ =>
    match dExact 1 s with
    | some (c2 :: r2) => if isSep c2 then some r2 else none
    | _ => none

/-- A trailing `\d{1,2}` (greedy). -/
def d12end (s : Str) : Option Str :=
  match dExact 2 s with
  | some r => some r
  | none => dExact 1 s

/-- Pattern 3: year, month, day digits joined by dash-or-slash separators. -/
def matchYMD (s : Str) : Option Str :=
  match dExact 4 s with
  | some (c :: r) =>
    if isSep c then
      match d12sep r with
      | some r2 => d12end r2
      | none => none
    else none
  | _ => none

/-- Pattern 4: day, month, four-digit year joined by dash-or-slash separators. -/
def matchDMY (s : Str) : Option Str :=
  match d12sep s with
  | some r =>
    match d12sep r with
    | some r2 => dExact 4 r2
    | none => none
  | none => none

/-- `\b` before a word character: the previous character (if any) is not a
word character. -/
def wordBoundary (prev : Option Char) : Bool :=
  match prev with
  | none => true
  | some c => !isWordC c

/-- Try the alternatives in order (case-insensitively), insisting on a `\b`
after the matched word, then consume an optional comma (`\b(...)\b,?`). -/
def matchAlts : List Str → Str → Option Str
  | [], _ => none
  | a :: rest, s =>
    if startsWithL (lowerS a) (lowerS s) then
      let r := s.drop a.length
      let okAfter :=
        match r with
        | [] => true
        | c :: _ => !isWordC c
      if okAfter then
        some (match r with
        | ',' :: r2 => r2
        | _ => r)
      else matchAlts rest s
    else matchAlts rest s

/-- Weekday alternatives, in source order (full names before
abbreviations). -/
def weekdayAlts : List Str :=
  ["Monday".data, "Tuesday".data, "Wednesday".data, "Thursday".data,
   "Friday".data, "Saturday".data, "Sunday".data,
   "Mon".data, "Tue".data, "Wed".data, "Thu".data, "Fri".data,
   "Sat".data, "Sun".data]

/-- Month alternatives, in source order — `May` deliberately excluded. -/
def monthAlts : List Str :=
  ["January".data, "February".data, "March".data, "April".data,
   "June".data, "July".data, "August".data, "September".data,
   "October".data, "November".data, "December".data,
   "Jan".data, "Feb".data, "Mar".data, "Apr".data, "Jun".data,
   "Jul".data, "Aug".data, "Sep".data, "Oct".data, "Nov".data,
   "Dec".data]

/-- Pattern 5: `\b(Monday|…|Sun)\b,?` (case-insensitive). -/
def matchWeekday (prev : Option Char) (s : Str) : Option Str :=
  if wordBoundary prev then matchAlts weekdayAlts s else none

/-- Pattern 6: `\b(January|…|Dec)\b,?` (case-insensitive, no May). -/
def matchMonth (prev : Option Char) (s : Str) : Option Str :=
  if wordBoundary prev then matchAlts monthAlts s else none

/-- Pattern 7: `\b(19|20)\d{2}\b`. -/
def matchYear (prev : Option Char) (s : Str) : Option Str :=
  if wordBoundary prev then
    let after := fun (r : Str) =>
      match r with
      | [] => some r
      | c :: _ => if isWordC c then none else some r
    if startsWithL "19".data s then
      match dExact 2 (s.drop 2) with
      | some r => after r
      | none =>
        if startsWithL "20".data s then
          match dExact 2 (s.drop 2) with
          | some r => after r
          | none => none
        else none
    else if startsWithL "20".data s then
      match dExact 2 (s.drop 2) with
      | some r => after r
      | none => none
    else none
  else none

/-- Left-to-right non-overlapping scan of one pattern over a text:
collect the matched fragments and the text with them removed
(`text.match(re)` + `text.replace(re, "")` for a `/g` regex).
The previous character is threaded for `\b`; fuel is the text length. -/
def scanPat (m : Option Char → Str → Option Str) :
    Nat → Option Char → Str → List Str × Str
  | 0, _, s => ([], s)
  | fuel + 1, prev, s =>
    match s with
    | [] => ([], [])
    | c :: rest =>
      match m prev s with
      | some r =>
        let len := s.length - r.length
        if 0 < len then
          let frag := s.take len
          let (fs, out) := scanPat m fuel frag.getLast? r
          (frag :: fs, out)
        else
          let (fs, out) := scanPat m fuel (some c) rest
          (fs, c :: out)
      | none =>
        let (fs, out) := scanPat m fuel (some c) rest
        (fs, c :: out)

/-- Run one pattern over a whole string (position 0 has no previous
character). -/
def runPat (m : Option Char → Str → Option Str) (s : Str) : List Str × Str :=
  scanPat m (s.length + 1) none s

/-- The `temporalPatterns` array, in source order (long/specific before
short/general). -/
def temporalMatchers : List (Option Char → Str → Option Str) :=
  [fun _ s => matchIso s, fun _ s => matchTime s, fun _ s => matchYMD s,
   fun _ s => matchDMY s, matchWeekday, matchMonth, matchYear]

/-- Result of `analyzeTemporalLine`. -/
structure TemporalAnalysis where
  hasTemporal : Bool
  matchedFragments : List Str
  strippedText : Str
  isShortLine : Bool
deriving DecidableEq, Repr

/-- The sequential strip inside `analyzeTemporalLine`: each pattern is
matched against (and removed from) the residue of the previous ones. -/
def stripFold : List (Option Char → Str → Option Str) → Str →
    Bool × List Str × Str
  | [], s => (false, [], s)
  | m :: ms, s =>
    let (fs, s') := runPat m s
    let s1 := if fs.isEmpty then s else s'
    let (h, fs2, s2) := stripFold ms s1
    (h || !fs.isEmpty, fs ++ fs2, s2)

/-- `analyzeTemporalLine` from the plugin. -/
def analyzeTemporalLine (line : Str) : TemporalAnalysis :=
  let (h, frags, stripped) := stripFold temporalMatchers line
  { hasTemporal := h, matchedFragments := frags,
    strippedText := trimJS stripped,
    isShortLine := h && decide ((trimJS stripped).length ≤ 30) }

/-- `temporalLineSignature`: strip every pattern from the raw line, trim,
lower-case. -/
def sigStrip : List (Option Char → Str → Option Str) → Str → Str
  | [], s => s
  | m :: ms, s => sigStrip ms (runPat m s).2

/-- Content signature of a temporal line. -/
def temporalLineSignature (line : Str) : Str :=
  lowerS (trimJS (sigStrip temporalMatchers line))

/-- Kinds of line difference. -/
inductive DiffType where
  | added
  | removed
  | changed
deriving DecidableEq, Repr

/-- One differing line (`LineDiff` in the plugin). -/
structure LineDiff where
  type : DiffType
  lineNum : Nat
  oldLine : Option Str
  newLine : Option Str
deriving DecidableEq, Repr

/-- `diffLines`: positional line-by-line comparison (not an LCS diff). -/
def diffLines (oldText newText : Str) : List LineDiff :=
  let oldLines := splitNl oldText
  let newLines := splitNl newText
  (List.range (max oldLines.length newLines.length)).filterMap (fun i =>
    match oldLines[i]?, newLines[i]? with
    | some a, some b =>
      if a = b then none else some ⟨.changed, i + 1, some a, some b⟩
    | none, some b => some ⟨.added, i + 1, none, some b⟩
    | some a, none => some ⟨.removed, i + 1, some a, none⟩
    | none, none => none)

/-- A block of consecutive changed lines (`DiffBlock`); the `types` set is
kept in JS `Set` insertion order. -/
structure DiffBlock where
  startLine : Nat
  endLine : Nat
  types : List DiffType
  lines : List LineDiff
deriving DecidableEq, Repr

/-- `Set.add` for diff types. -/
def addTypeD (ts : List DiffType) (t : DiffType) : List DiffType :=
  if t ∈ ts then ts else ts ++ [t]

/-- Fold of `groupDiffsIntoBlocks` over the remaining diffs. -/
def groupGo : List LineDiff → DiffBlock → List DiffBlock
  | [], cur => [cur]
  | d :: rest, cur =>
    if d.lineNum - cur.endLine ≤ 2 then
      groupGo rest
        { cur with
          endLine := d.lineNum, types := addTypeD cur.types d.type,
          lines := cur.lines ++ [d] }
    else cur :: groupGo rest ⟨d.lineNum, d.lineNum, [d.type], [d]⟩

/-- `groupDiffsIntoBlocks`: merge diffs at distance ≤ 2 into blocks. -/
def groupDiffsIntoBlocks : List LineDiff → List DiffBlock
  | [] => []
  | d :: rest => groupGo rest ⟨d.lineNum, d.lineNum, [d.type], [d]⟩

/-- `truncate(str, maxLen)`. -/
def truncateS (s : Str) (maxLen : Nat) : Str :=
  if s.length ≤ maxLen then s else s.take maxLen ++ "...".data

/-- Join strings with a separator. -/
def joinWith (sep : Str) (xs : List Str) : Str :=
  (List.intersperse sep xs).flatten

/-- `summarizeBlock`: `L⟨range⟩ [labels] preview` (the JS `l.newLine ||
l.oldLine` truthiness test skips empty strings; `??` keeps them). -/
def summarizeBlock (b : DiffBlock) : Str :=
  let range :=
    if b.startLine = b.endLine then 'L' :: natToStr b.startLine
    else 'L' :: natToStr b.startLine ++ '-' :: natToStr b.endLine
  let labels :=
    (if DiffType.added ∈ b.types then ["新增".data] else []) ++
    (if DiffType.removed ∈ b.types then ["移除".data] else []) ++
    (if DiffType.changed ∈ b.types then ["修改".data] else [])
  let previewLine := b.lines.find? (fun l =>
    !(l.newLine.getD []).isEmpty || !(l.oldLine.getD []).isEmpty)
  let preview :=
    match previewLine with
    | some l => truncateS (trimJS (l.newLine.getD (l.oldLine.getD []))) 120
    | none => []
  range ++ " [".data ++ joinWith "+".data labels ++ "] ".data ++ preview

/-- Wrap to a signed 32-bit integer (the JS `| 0` coercion). -/
def int32Wrap (x : Int) : Int := (x + 2 ^ 31) % 2 ^ 32 - 2 ^ 31

/-- One step of `simpleHash`: `h = ((h << 5) - h + ch) | 0` (the shift
itself wraps to 32 bits in JS). -/
def simpleHashStep (h : Int) (c : Char) : Int :=
  int32Wrap (int32Wrap (h * 32) - h + c.toNat)

/-- Base-36 digit. -/
def b36digit (n : Nat) : Char :=
  if n < 10 then Char.ofNat (48 + n) else Char.ofNat (87 + n)

/-- Base-36 rendering (fueled). -/
def toBase36 : Nat → Nat → Str
  | 0, _ => []
  | fuel + 1, n =>
    if n < 36 then [b36digit n]
    else toBase36 fuel (n / 36) ++ [b36digit (n % 36)]

/-- `simpleHash`: the 32-bit rolling hash rendered as `(h >>> 0)` in base
36. -/
def simpleHash (s : Str) : Str :=
  let h := s.foldl simpleHashStep 0
  let u := ((h % 2 ^ 32 + 2 ^ 32) % 2 ^ 32).toNat
  toBase36 (u + 1) u

/-- A short temporal line dropped from the prompt. -/
structure RemovedLine where
  lineNum : Nat
  content : Str
  signature : Str
deriving DecidableEq, Repr

/-- A long temporal line kept in the prompt but flagged. -/
structure AlertLine where
  lineNum : Nat
  content : Str
  signature : Str
  matchedFragments : List Str
deriving DecidableEq, Repr

/-- The indexed `rawLines.filter` of the transform hook: classify each line
and produce the removed records, the alert records and the kept lines.
`i` is the current zero-based index (line numbers are `i + 1`). -/
def classifyGo : Nat → List Str → List RemovedLine × List AlertLine × List Str
  | _, [] => ([], [], [])
  | i, line :: rest =>
    let (rs, als, ks) := classifyGo (i + 1) rest
    let analysis := analyzeTemporalLine line
    if !analysis.hasTemporal then (rs, als, line :: ks)
    else
      let signature := temporalLineSignature line
      if analysis.isShortLine then
        ({ lineNum := i + 1, content := trimJS line, signature := signature } :: rs,
         als, ks)
      else
        (rs,
         { lineNum := i + 1, content := trimJS line, signature := signature,
           matchedFragments := analysis.matchedFragments } :: als,
         line :: ks)

/-- Classification of all raw lines. -/
def classifyLines (rawLines : List Str) :
    List RemovedLine × List AlertLine × List Str :=
  classifyGo 0 rawLines

/-- The `removed:` signature namespace. -/
def removedKeyOf (sig : Str) : Str := "removed:".data ++ sig

/-- The `temporal-alert:` signature namespace. -/
def alertKeyOf (sig : Str) : Str := "temporal-alert:".data ++ sig

/-- The plugin's module-level mutable state (all JS `Map`s/`Set`s, keyed by
model id, track key `sessionID:modelID`, or session id). -/
structure WState where
  notifiedTemporalLines : List (Str × List Str)
  globalPrevFilteredText : List (Str × Str)
  firstHashMap : List (Str × Str)
  lastHashMap : List (Str × Str)
  callCountMap : List (Str × Nat)
  totalDiffLinesMap : List (Str × Nat)
  removedLineCountMap : List (Str × Nat)
  temporalAlertCountMap : List (Str × Nat)
  diffSummaryMap : List (Str × List Str)
  sessionTrackKeys : List (Str × List Str)
deriving DecidableEq, Repr

/-- Fresh plugin state (module initialisation). -/
def initialWState : WState := ⟨[], [], [], [], [], [], [], [], [], []⟩

/-- Operator notifications sent by the transform hook, as structured
events (the Telegram message text is formatted from exactly these data). -/
inductive WEvent where
  | active (modelID : Str) (hash : Str) (removed : List RemovedLine)
      (alerts : List AlertLine)
  | removedNotice (modelID : Str) (lines : List RemovedLine)
  | alertNotice (modelID : Str) (lines : List AlertLine)
  | driftAlert (modelID : Str) (callCount : Nat) (diffCount : Nat)
      (shownBlocks : List DiffBlock)
deriving DecidableEq, Repr

/-- One invocation of the `experimental.chat.system.transform` hook. -/
structure WInput where
  sessionID : Option Str
  modelId : Option Str
  system : List Str
deriving DecidableEq, Repr

/-- `inputData.model?.id || "unknown"` (the empty string is falsy). -/
def modelIDOf (inp : WInput) : Str :=
  match inp.modelId with
  | some s => if s.isEmpty then "unknown".data else s
  | none => "unknown".data

/-- The filtered text the hook writes back into `output.system`. -/
def filteredTextOf (inp : WInput) : Str :=
  joinNl (classifyLines (splitNl (joinNl inp.system))).2.2

/-- Record `sessionID → trackKey` (`sessionTrackKeys`). -/
def wTrack (sid trackKey : Str) (st : WState) : WState :=
  { st with
    sessionTrackKeys := aset st.sessionTrackKeys sid
      (sadd ((alookup st.sessionTrackKeys sid).getD []) trackKey) }

/-- Bump the per-track call counter. -/
def wCallCount (trackKey : Str) (n : Nat) (st : WState) : WState :=
  { st with callCountMap := aset st.callCountMap trackKey n }

/-- Record the first-call hash when this is the first call for the track. -/
def wFirstHash (trackKey h : Str) (isFirst : Bool) (st : WState) : WState :=
  if isFirst then { st with firstHashMap := aset st.firstHashMap trackKey h }
  else st

/-- Record the latest hash. -/
def wLastHash (trackKey h : Str) (st : WState) : WState :=
  { st with lastHashMap := aset st.lastHashMap trackKey h }

/-- Accumulate the removed-line count. -/
def wRemovedCount (trackKey : Str) (n : Nat) (st : WState) : WState :=
  { st with
    removedLineCountMap := aset st.removedLineCountMap trackKey
      ((alookup st.removedLineCountMap trackKey).getD 0 + n) }

/-- Accumulate the temporal-alert count. -/
def wAlertCount (trackKey : Str) (n : Nat) (st : WState) : WState :=
  { st with
    temporalAlertCountMap := aset st.temporalAlertCountMap trackKey
      ((alookup st.temporalAlertCountMap trackKey).getD 0 + n) }

/-- Ensure the notified-signatures set exists for this model id. -/
def wNotifyInit (modelID : Str) (st : WState) : WState :=
  if (alookup st.notifiedTemporalLines modelID).isNone then
    { st with
      notifiedTemporalLines := aset st.notifiedTemporalLines modelID [] }
  else st

/-- Add notified signature keys for a model id. -/
def wNotify (modelID : Str) (keys : List Str) (st : WState) : WState :=
  { st with
    notifiedTemporalLines := aset st.notifiedTemporalLines modelID
      (saddAll ((alookup st.notifiedTemporalLines modelID).getD []) keys) }

/-- Store the model's global baseline (the filtered text). -/
def wSetPrev (modelID filteredText : Str) (st : WState) : WState :=
  { st with
    globalPrevFilteredText := aset st.globalPrevFilteredText modelID
      filteredText }

/-- Accumulate the structural-diff line count. -/
def wTotalDiff (trackKey : Str) (n : Nat) (st : WState) : WState :=
  { st with
    totalDiffLinesMap := aset st.totalDiffLinesMap trackKey
      ((alookup st.totalDiffLinesMap trackKey).getD 0 + n) }

/-- Append structural-diff block summaries. -/
def wDiffSummary (trackKey : Str) (xs : List Str) (st : WState) : WState :=
  { st with
    diffSummaryMap := aset st.diffSummaryMap trackKey
      ((alookup st.diffSummaryMap trackKey).getD [] ++ xs) }

/-- Step 4 of the hook: structural-change detection against the model's
global baseline (on the filtered text), with its state bookkeeping. -/
def wStep4 (modelID trackKey filteredText : Str) (callCount : Nat)
    (st : WState) : WState × List WEvent :=
  match alookup st.globalPrevFilteredText modelID with
  | some prevFiltered =>
    if prevFiltered ≠ filteredText then
      let structuralDiffs := diffLines prevFiltered filteredText
      if structuralDiffs.isEmpty then (st, [])
      else
        let blocks := groupDiffsIntoBlocks structuralDiffs
        let shownBlocks := blocks.take 5
        (wDiffSummary trackKey (shownBlocks.map summarizeBlock)
          (wTotalDiff trackKey structuralDiffs.length st),
         [.driftAlert modelID callCount structuralDiffs.length shownBlocks])
    else (st, [])
  | none => (st, [])

/-- The hook body after the guards: bookkeeping, the first-sight (active)
branch, the new-signature notices, structural detection and the baseline
update.  Returns the new state and the notifications sent. -/
def watchdogStep (st : WState) (inp : WInput) (sid : Str) :
    WState × List WEvent :=
  let modelID := modelIDOf inp
  let trackKey := sid ++ ':' :: modelID
  let callCount := (alookup st.callCountMap trackKey).getD 0 + 1
  let rawText := joinNl inp.system
  let rawLines := splitNl rawText
  let cls := classifyLines rawLines
  let removedLines := cls.1
  let temporalAlertLines := cls.2.1
  let filteredText := joinNl cls.2.2
  let filteredHash := simpleHash filteredText
  let isFirstCallInSession := (alookup st.firstHashMap trackKey).isNone
  let st1 := wNotifyInit modelID
    (wAlertCount trackKey temporalAlertLines.length
      (wRemovedCount trackKey removedLines.length
        (wLastHash trackKey filteredHash
          (wFirstHash trackKey filteredHash isFirstCallInSession
            (wCallCount trackKey callCount
              (wTrack sid trackKey st))))))
  let notifiedSet := (alookup st1.notifiedTemporalLines modelID).getD []
  let isGlobalFirstForModel := (alookup st1.globalPrevFilteredText modelID).isNone
  if isGlobalFirstForModel && isFirstCallInSession then
    (wSetPrev modelID filteredText
      (wNotify modelID
        (removedLines.map (fun r => removedKeyOf r.signature) ++
          temporalAlertLines.map (fun a => alertKeyOf a.signature)) st1),
     [.active modelID filteredHash removedLines temporalAlertLines])
  else
    let newRemoved := removedLines.filter
      (fun r => !(decide (removedKeyOf r.signature ∈ notifiedSet)))
    let step3 : WState × List WEvent :=
      if newRemoved.isEmpty then (st1, [])
      else
        (wNotify modelID (newRemoved.map (fun r => removedKeyOf r.signature)) st1,
         [.removedNotice modelID newRemoved])
    let notifiedSet2 := (alookup step3.1.notifiedTemporalLines modelID).getD []
    let newAlert := temporalAlertLines.filter
      (fun a => !(decide (alertKeyOf a.signature ∈ notifiedSet2)))
    let step3b : WState × List WEvent :=
      if newAlert.isEmpty then (step3.1, [])
      else
        (wNotify modelID (newAlert.map (fun a => alertKeyOf a.signature)) step3.1,
         [.alertNotice modelID newAlert])
    let step4 := wStep4 modelID trackKey filteredText callCount step3b.1
    (wSetPrev modelID filteredText step4.1,
     step3.2 ++ step3b.2 ++ step4.2)

/-- The `experimental.chat.system.transform` hook: guards, then the step,
writing the filtered text back into `output.system`. -/
def watchdogTransform (st : WState) (inp : WInput) :
    WState × List WEvent × List Str :=
  match inp.sessionID with
  | none => (st, [], inp.system)
  | some sid =>
    if sid.isEmpty || inp.system.isEmpty then (st, [], inp.system)
    else
      let r := watchdogStep st inp sid
      (r.1, r.2, [filteredTextOf inp])

/-- Run a sequence of hook invocations from a given state, accumulating
the notifications. -/
def watchdogRunFrom (st : WState) : List WInput → WState × List WEvent
  | [] => (st, [])
  | i :: is =>
    let r := watchdogTransform st i
    let rest := watchdogRunFrom r.1 is
    (rest.1, r.2.1 ++ rest.2)

/-- Run a sequence of hook invocations over the lifetime of the runtime
process (fresh module state). -/
def watchdogRun (is : List WInput) : WState × List WEvent :=
  watchdogRunFrom initialWState is

/-- Does a notification event report the removal signature `sig` for agent
identity `m`? -/
def eventMentionsRemoved (e : WEvent) (m sig : Str) : Bool :=
  match e with
  | .active m' _ rs _ => decide (m' = m) && rs.any (fun r => decide (r.signature = sig))
  | .removedNotice m' rs => decide (m' = m) && rs.any (fun r => decide (r.signature = sig))
  | _ => false

/-- Does a notification event report the long-line alert signature `sig`
for agent identity `m`? -/
def eventMentionsAlert (e : WEvent) (m sig : Str) : Bool :=
  match e with
  | .active m' _ _ als => decide (m' = m) && als.any (fun a => decide (a.signature = sig))
  | .alertNotice m' als => decide (m' = m) && als.any (fun a => decide (a.signature = sig))
  | _ => false

/-- Number of events notifying the removed-namespace signature. -/
def removedEventCount (evs : List WEvent) (m sig : Str) : Nat :=
  (evs.filter (fun e => eventMentionsRemoved e m sig)).length

/-- Number of events notifying the alert-namespace signature. -/
def alertEventCount (evs : List WEvent) (m sig : Str) : Nat :=
  (evs.filter (fun e => eventMentionsAlert e m sig)).length

/-- Number of structural-drift alerts for an agent identity. -/
def driftEventCount (evs : List WEvent) (m : Str) : Nat :=
  (evs.filter (fun e =>
    match e with
    | .driftAlert m' _ _ _ => decide (m' = m)
    | _ => false)).length

/-! ## Reverse-proxy HTML response rewriting (`injectInstanceIsolation`)

The `ModifyResponse` hook of the strip-prefix proxy: buffer `text/html`
bodies, insert the per-instance storage-isolation script right after the
first case-insensitive `<head>` occurrence, recompute `Content-Length`.
`bytes.ToLower` is byte-wise over ASCII, modelled character-wise. -/

/-- The isolation script text before the spliced instance id (from `injectInstanceIsolation` in the proxy). -/
def scriptPre : Str :=
  "<script>\n(function() \x7b\n  var K = \"_cc_active_inst\";\n  var ID = \"".data

/-- The isolation script text after the spliced instance id. -/
def scriptPost : Str :=
  "\";\n  var SK = \"_cc_store_\" + ID;\n\n  function isShared(n) \x7b\n".data ++
  "    return n === K || n.startsWith(\"_cc_store_\") ||\n".data ++
  "      n === \"theme\" || n === \"opencode-theme-id\" || n === \"opencode-color-scheme\" ||\n".data ++
  "      n.startsWith(\"opencode-theme-css-\");\n  \x7d\n\n  var toRemove = [];\n".data ++
  "  for (var i = localStorage.length; i--;) \x7b\n    var n = localStorage.key(i);\n".data ++
  "    if (!isShared(n)) toRemove.push(n);\n  \x7d\n".data ++
  "  toRemove.forEach(function(n) \x7b localStorage.removeItem(n); \x7d);\n\n".data ++
  "  var saved = localStorage.getItem(SK);\n  if (saved) \x7b\n    try \x7b\n".data ++
  "      var d = JSON.parse(saved);\n".data ++
  "      Object.keys(d).forEach(function(n) \x7b localStorage.setItem(n, d[n]); \x7d);\n".data ++
  "    \x7d catch(e) \x7b\x7d\n  \x7d\n  localStorage.setItem(K, ID);\n\n".data ++
  "  var _set = Storage.prototype.setItem;\n  var _rm = Storage.prototype.removeItem;\n".data ++
  "  var _cl = Storage.prototype.clear;\n  var syncing = false;\n\n  function sync() \x7b\n".data ++
  "    if (syncing) return;\n    syncing = true;\n    var s = \x7b\x7d;\n".data ++
  "    for (var i = localStorage.length; i--;) \x7b\n      var n = localStorage.key(i);\n".data ++
  "      if (!isShared(n)) s[n] = localStorage.getItem(n);\n    \x7d\n".data ++
  "    _set.call(localStorage, SK, JSON.stringify(s));\n    syncing = false;\n  \x7d\n\n".data ++
  "  Storage.prototype.setItem = function(n, v) \x7b\n    _set.call(this, n, v);\n".data ++
  "    if (this === localStorage && !isShared(n)) sync();\n  \x7d;\n".data ++
  "  Storage.prototype.removeItem = function(n) \x7b\n    _rm.call(this, n);\n".data ++
  "    if (this === localStorage && !isShared(n)) sync();\n  \x7d;\n".data ++
  "  Storage.prototype.clear = function() \x7b\n    _cl.call(this);\n".data ++
  "    if (this === localStorage) sync();\n  \x7d;\n\x7d)();\n</script>".data
/-- The injected script for a given instance id (the Go source splices the
id between the two fixed chunks). -/
def isolationScript (instanceID : Str) : Str :=
  scriptPre ++ instanceID ++ scriptPost

/-- An upstream response as the rewriting hook sees it: body plus whether
the hook replaced it (and then the recomputed `Content-Length`). -/
structure ProxyResp where
  body : Str
  contentLength : Option Nat
deriving DecidableEq, Repr

/-- `injectInstanceIsolation(instanceID)` applied to a response with the
given `Content-Type` header and body. -/
def injectInstanceIsolation (instanceID contentType body : Str) : ProxyResp :=
  if !containsSub contentType "text/html".data then
    { body := body, contentLength := none }
  else
    match firstOccur (lowerS body) "<head>".data with
    | none => { body := body, contentLength := none }
    | some idx =>
      let insertAt := idx + ("<head>".data).length
      let modified := body.take insertAt ++ isolationScript instanceID ++ body.drop insertAt
      { body := modified, contentLength := some modified.length }

/-! ## Handler layer: create / delete instance (`handler.go`)

The Docker engine and the reverse proxy are injected collaborators: engine
calls are recorded as `EngineOp` values (their success/failure, where the
handler distinguishes it, is an explicit argument), the proxy registration
map is the in-memory association list of `proxy.go`. -/

/-- A container-engine call made by a handler. -/
inductive EngineOp where
  | removeContainer (containerID : Str)
  | removeVolume (volumeName : Str)
deriving DecidableEq, Repr

/-- The mutable state a handler touches: the Store, the Port Pool and the
reverse-proxy registrations. -/
structure HState where
  db : StoreDB
  pool : PortPool
  proxyRegs : List (Str × Nat)
deriving DecidableEq, Repr

/-- `ReverseProxy.Register`. -/
def proxyRegister (regs : List (Str × Nat)) (id : Str) (port : Nat) :
    List (Str × Nat) :=
  aset regs id port

/-- `ReverseProxy.Unregister`. -/
def proxyUnregister (regs : List (Str × Nat)) (id : Str) : List (Str × Nat) :=
  regs.filter (fun kv => kv.1 ≠ id)

/-- `docker.Manager.RemoveContainerAndVolume` (src/unnamed/part_004): the
engine calls it performs — force container removal, then best-effort
removal of the named home volume `cloudcode-home-{instanceID}`. -/
def removeContainerAndVolumeOps (containerID instanceID : Str) : List EngineOp :=
  [.removeContainer containerID,
   .removeVolume ("cloudcode-home-".data ++ instanceID)]

/-- Response of the delete-instance endpoint. -/
inductive DeleteResp where
  | notFound
  | okRedirect
  | okTrigger
deriving DecidableEq, Repr

/-- `handleDeleteInstance`: look up the record; if a container id is
recorded, remove the container (a removal failure is only logged — the
flow continues identically, so no failure flag is needed); unregister the
proxy route; release the port; delete the row.  Returns the response, the
new state and the engine calls made. -/
def handleDeleteInstance (st : HState) (id : Str) (referer : Str) :
    DeleteResp × HState × List EngineOp :=
  match storeGet st.db id with
  | none => (.notFound, st, [])
  | some inst =>
    let ops := if inst.containerID.isEmpty then []
               else [EngineOp.removeContainer inst.containerID]
    let st := { st with proxyRegs := proxyUnregister st.proxyRegs id }
    let st := { st with pool := st.pool.release inst.port }
    let st := { st with db := storeDelete st.db id }
    let resp :=
      if !referer.isEmpty && containsSub referer "/instances/".data then
        DeleteResp.okRedirect
      else DeleteResp.okTrigger
    (resp, st, ops)

/-- `unicode.IsSpace` over the characters `strings.TrimSpace` strips
(ASCII part plus the common Unicode spaces). -/
def isGoUniSpace (c : Char) : Bool :=
  c = ' ' || c = '\t' || c = '\n' || c = '\x0b' || c = '\x0c' || c = '\x0d' ||
  c.toNat = 0x85 || c.toNat = 0xa0 || c.toNat = 0x1680 ||
  (0x2000 ≤ c.toNat && c.toNat ≤ 0x200a) ||
  c.toNat = 0x2028 || c.toNat = 0x2029 || c.toNat = 0x202f ||
  c.toNat = 0x205f || c.toNat = 0x3000

/-- `strings.TrimSpace`. -/
def trimSpaceGo (s : Str) : Str :=
  ((s.dropWhile isGoUniSpace).reverse.dropWhile isGoUniSpace).reverse

/-- Response of the create-instance endpoint. -/
inductive CreateResp where
  | badRequest
  | conflict
  | unavailable
  | serverError
  | created
deriving DecidableEq, Repr

/-- `handleCreateInstance`: validate the name, reject duplicates, allocate
a port, persist the record as `created` (releasing the port again if the
insert fails), then ask the engine for a container (`containerResult` is
the engine's answer) and record `running`/`error` accordingly.  The random
uuid prefix and `time.Now()` are the `newID`/`now` arguments. -/
def handleCreateInstance (st : HState) (nameRaw : Str) (newID : Str)
    (now : Nat) (containerResult : Except Str Str) : CreateResp × HState :=
  let name := trimSpaceGo nameRaw
  if name.isEmpty then (.badRequest, st)
  else if (storeGetByName st.db name).isSome then (.conflict, st)
  else
    match st.pool.allocate with
    | .error _ => (.unavailable, st)
    | .ok (port, pool') =>
      let st := { st with pool := pool' }
      let inst : Instance :=
        { id := newID, name := name, containerID := [],
          status := "created".data, errorMsg := [], port := port,
          workDir := "/root".data, envVars := [], createdAt := 0,
          updatedAt := 0 }
      match storeCreate st.db inst now with
      | none => (.serverError, { st with pool := st.pool.release port })
      | some (db', inst') =>
        let st := { st with db := db' }
        match containerResult with
        | .error e =>
          let upd := storeUpdate st.db
            { inst' with status := "error".data, errorMsg := e } now
          (.created, { st with db := upd.1 })
        | .ok cid =>
          let upd := storeUpdate st.db
            { inst' with containerID := cid, status := "running".data } now
          (.created, { st with
            db := upd.1,
            proxyRegs := proxyRegister st.proxyRegs inst'.id inst'.port })

/-! ## Specification-side predicates -/

/-- `needle` occurs in `hay` at position `i`. -/
def occursAt (hay needle : Str) (i : Nat) : Prop :=
  ∃ pre post, hay = pre ++ needle ++ post ∧ pre.length = i

/-- `needle` occurs somewhere in `hay`. -/
def SubStr (needle hay : Str) : Prop :=
  ∃ pre post, hay = pre ++ needle ++ post

/-- A canonical Go `map[string]string` value: association list with
strictly increasing keys (the shape `json.Marshal` itself produces, and
the canonical representative of a Go map, which has no key order). -/
def canonicalEnv (m : List (Str × Str)) : Prop :=
  List.Pairwise (fun a b => strLt a.1 b.1 = true) m

/-- The concrete instance row used by the delete-instance scenario
(`env_vars` holds the JSON of an empty map, as `Create` writes it). -/
def c2Row : Row :=
  { id := "ab12cd34".data, name := "demo".data, containerID := "c1".data,
    status := "running".data, errorMsg := [], port := 10000,
    workDir := "/root".data, envVars := [lbrace, rbrace], createdAt := 1,
    updatedAt := 1 }

/-- Handler state holding exactly that instance, its port marked used and
its proxy route registered. -/
def c2State : HState :=
  { db := [c2Row], pool := ⟨10000, 10100, [10000]⟩,
    proxyRegs := [("ab12cd34".data, 10000)] }

/-! ## Helper lemmas -/

theorem startsWithL_iff (n h : Str) : startsWithL n h = true ↔ ∃ t, h = n ++ t := by
  induction n generalizing h with
  | nil => simp [startsWithL]
  | cons a as ih =>
    cases h with
    | nil =>
      simp [startsWithL]
    | cons b bs =>
      simp only [startsWithL, Bool.and_eq_true, decide_eq_true_eq, ih,
        List.cons_append, List.cons.injEq]
      constructor
      · rintro ⟨rfl, t, rfl⟩
        exact ⟨t, rfl, rfl⟩
      · rintro ⟨t, rfl, rfl⟩
        exact ⟨rfl, t, rfl⟩

theorem containsSub_iff (h n : Str) : containsSub h n = true ↔ SubStr n h := by
  induction h with
  | nil =>
    simp only [containsSub, SubStr, startsWithL_iff]
    constructor
    · rintro ⟨t, ht⟩
      exact ⟨[], t, by rw [List.nil_append]; exact ht⟩
    · rintro ⟨pre, post, hp⟩
      have h1 := List.append_eq_nil.mp hp.symm
      have h2 := List.append_eq_nil.mp h1.1
      exact ⟨[], by simp [h2.2]⟩
  | cons c rest ih =>
    simp only [containsSub, Bool.or_eq_true, startsWithL_iff, ih]
    constructor
    · rintro (⟨t, ht⟩ | ⟨pre, post, hp⟩)
      · exact ⟨[], t, by simpa using ht⟩
      · exact ⟨c :: pre, post, by simp [hp]⟩
    · rintro ⟨pre, post, hp⟩
      cases pre with
      | nil => exact Or.inl ⟨post, by simpa using hp⟩
      | cons x xs =>
        right
        simp only [List.cons_append, List.cons.injEq] at hp
        exact ⟨xs, post, hp.2⟩

theorem subStr_here (pre n post : Str) : SubStr n (pre ++ n ++ post) :=
  ⟨pre, post, rfl⟩

theorem SubStr.inL {n h : Str} (pre : Str) (hs : SubStr n h) : SubStr n (pre ++ h) := by
  rcases hs with ⟨p, q, rfl⟩
  exact ⟨pre ++ p, q, by simp⟩

theorem SubStr.inR {n h : Str} (post : Str) (hs : SubStr n h) : SubStr n (h ++ post) := by
  rcases hs with ⟨p, q, rfl⟩
  exact ⟨p, q ++ post, by simp⟩

theorem subStr_flatten_intersperse {x : Str} (sep : Str) :
    ∀ {xs : List Str}, x ∈ xs → SubStr x (List.intersperse sep xs).flatten := by
  intro xs
  induction xs with
  | nil => intro h; cases h
  | cons a rest ih =>
    intro hmem
    cases rest with
    | nil =>
      rcases List.mem_singleton.mp hmem with rfl
      simpa using subStr_here [] x []
    | cons b bs =>
      rcases List.mem_cons.mp hmem with rfl | hmem'
      · simp only [List.intersperse_cons_cons, List.flatten_cons]
        exact ⟨[], sep ++ (List.intersperse sep (b :: bs)).flatten, by simp⟩
      · have := ih hmem'
        simp only [List.intersperse_cons_cons, List.flatten_cons]
        have h2 := (this.inL sep).inL a
        simpa using h2

theorem firstOccur_isSome (h n : Str) :
    (firstOccur h n).isSome = containsSub h n := by
  induction h with
  | nil =>
    by_cases hs : startsWithL n [] = true <;> simp [firstOccur, containsSub, hs]
  | cons c rest ih =>
    by_cases hs : startsWithL n (c :: rest) = true <;>
      simp [firstOccur, containsSub, hs, ih]

theorem firstOccur_spec (h n : Str) :
    ∀ i, firstOccur h n = some i →
      occursAt h n i ∧ ∀ j < i, ¬ occursAt h n j := by
  induction h with
  | nil =>
    intro i hi
    simp only [firstOccur] at hi
    by_cases hs : startsWithL n [] = true
    · rw [if_pos hs] at hi
      cases hi
      rcases (startsWithL_iff n []).mp hs with ⟨t, ht⟩
      refine ⟨⟨[], t, by rw [List.nil_append]; exact ht, rfl⟩, ?_⟩
      · intro j hj; omega
    · rw [if_neg hs] at hi; cases hi
  | cons c rest ih =>
    intro i hi
    simp only [firstOccur] at hi
    by_cases hs : startsWithL n (c :: rest) = true
    · rw [if_pos hs] at hi
      cases hi
      rcases (startsWithL_iff n (c :: rest)).mp hs with ⟨t, ht⟩
      exact ⟨⟨[], t, by rw [List.nil_append]; exact ht, rfl⟩, by intro j hj; omega⟩
    · rw [if_neg hs] at hi
      rcases Option.map_eq_some'.mp hi with ⟨i', hi', rfl⟩
      rcases ih i' hi' with ⟨⟨pre, post, hsplit, hlen⟩, hmin⟩
      refine ⟨⟨c :: pre, post, by simp [hsplit], by simp [hlen]⟩, ?_⟩
      intro j hj hocc
      rcases hocc with ⟨pre', post', hsplit', hlen'⟩
      cases pre' with
      | nil =>
        apply hs
        rw [startsWithL_iff]
        exact ⟨post', by simpa using hsplit'⟩
      | cons x xs =>
        simp only [List.cons_append, List.cons.injEq] at hsplit'
        rcases hsplit' with ⟨rfl, hsplit''⟩
        have : xs.length < i' := by simp only [List.length_cons] at hlen'; omega
        exact hmin xs.length this ⟨xs, post', hsplit'', rfl⟩

theorem allocScan_not_mem (used : List Nat) :
    ∀ fuel p₀ p, allocScan used fuel p₀ = some p → p ∉ used := by
  intro fuel
  induction fuel with
  | zero => intro p₀ p h; cases h
  | succ f ih =>
    intro p₀ p h
    simp only [allocScan] at h
    by_cases hm : p₀ ∈ used
    · rw [if_pos hm] at h
      exact ih _ _ h
    · rw [if_neg hm] at h
      cases h
      exact hm

theorem filter_ne_of_not_mem (l : List Nat) (p : Nat) (hp : p ∉ l) :
    l.filter (fun q => q ≠ p) = l := by
  induction l with
  | nil => rfl
  | cons a rest ih =>
    simp only [List.mem_cons, not_or] at hp
    have ha : (fun q => decide (q ≠ p)) a = true := decide_eq_true (Ne.symm hp.1)
    rw [List.filter_cons, if_pos ha, ih hp.2]

theorem allocate_ok_shape (pp : PortPool) (p : Nat) (pool' : PortPool)
    (h : pp.allocate = .ok (p, pool')) :
    p ∉ pp.used ∧ pool' = { pp with used := p :: pp.used } := by
  unfold PortPool.allocate at h
  cases hscan : allocScan pp.used (pp.stop + 1 - pp.start) pp.start with
  | none => rw [hscan] at h; cases h
  | some q =>
    rw [hscan] at h
    have hq := allocScan_not_mem pp.used _ _ _ hscan
    dsimp only at h
    rw [if_neg hq] at h
    cases h
    exact ⟨hq, rfl⟩

theorem release_after_allocate (pp : PortPool) (p : Nat) (pool' : PortPool)
    (h : pp.allocate = .ok (p, pool')) : pool'.release p = pp := by
  rcases allocate_ok_shape pp p pool' h with ⟨hp, rfl⟩
  unfold PortPool.release
  have hused : (p :: pp.used).filter (fun q => q ≠ p) = pp.used := by
    have hhead : ¬ ((fun q => decide (q ≠ p)) p = true) := by simp
    rw [List.filter_cons, if_neg hhead, filter_ne_of_not_mem pp.used p hp]
  simp only []
  rw [hused]

/-- **C6.** Starting from an empty Port Pool over `[10000, 10100]`, 101
successive `Allocate` calls return `10000, …, 10100` in ascending order and
mark each port used; the 102nd allocation fails with the
no-available-ports error; after `Release(10000)` the next `Allocate`
returns `10000` again (first-unused, lowest-first policy). -/
theorem c6_port_pool_exhaustion_and_reuse :
    (allocN 101 (newPortPool 10000 10100)).1 =
      (List.range' 10000 101).map Except.ok ∧
    (allocN 101 (newPortPool 10000 10100)).2.used =
      (List.range' 10000 101).reverse ∧
    (allocN 101 (newPortPool 10000 10100)).2.allocate =
      Except.error ("no available ports in range 10000-10100".data) ∧
    (((allocN 101 (newPortPool 10000 10100)).2.release 10000).allocate).map
      (fun r => r.1) = Except.ok 10000 :=
  ⟨by rfl, by rfl, by rfl, by rfl⟩

/-- **C2.** On the delete-instance path the handler removes the container
(best-effort), unregisters the proxy route, releases the port and deletes
the Store record — but it never issues the volume removal that
`RemoveContainerAndVolume` (documented "used when permanently deleting an
instance") would perform: the named home volume `cloudcode-home-{id}` is
left behind, contradicting the claim and the manager's own documentation. -/
theorem c2_delete_instance_engine_ops :
    handleDeleteInstance c2State "ab12cd34".data [] =
      (.okTrigger, ⟨[], ⟨10000, 10100, []⟩, []⟩,
        [.removeContainer "c1".data]) ∧
    (∀ v, EngineOp.removeVolume v ∉
      (handleDeleteInstance c2State "ab12cd34".data []).2.2) ∧
    (handleDeleteInstance c2State "ab12cd34".data []).2.2 ≠
      removeContainerAndVolumeOps "c1".data "ab12cd34".data := by
  have hops : (handleDeleteInstance c2State "ab12cd34".data []).2.2 =
      [.removeContainer "c1".data] := by rfl
  refine ⟨by rfl, ?_, ?_⟩
  · intro v hv
    rw [hops] at hv
    simp at hv
  · rw [hops]
    intro heq
    simp [removeContainerAndVolumeOps] at heq

/-- **C10.** In the create-instance handler, once a port has been
allocated: if persisting the record fails, the handler releases the port,
restoring the Port Pool to its pre-request state (and answers 500); if
persisting succeeds, the allocated port stays marked used in the final
pool. -/
theorem c10_create_port_rollback (st : HState) (nameRaw newID : Str)
    (now : Nat) (res : Except Str Str) (port : Nat) (pool' : PortPool)
    (hname : trimSpaceGo nameRaw ≠ [])
    (hdup : storeGetByName st.db (trimSpaceGo nameRaw) = none)
    (halloc : st.pool.allocate = .ok (port, pool')) :
    (storeCreate st.db
        { id := newID, name := trimSpaceGo nameRaw, containerID := [],
          status := "created".data, errorMsg := [], port := port,
          workDir := "/root".data, envVars := [], createdAt := 0,
          updatedAt := 0 } now = none →
      handleCreateInstance st nameRaw newID now res =
        (CreateResp.serverError, st)) ∧
    (∀ db' inst', storeCreate st.db
        { id := newID, name := trimSpaceGo nameRaw, containerID := [],
          status := "created".data, errorMsg := [], port := port,
          workDir := "/root".data, envVars := [], createdAt := 0,
          updatedAt := 0 } now = some (db', inst') →
      port ∈ (handleCreateInstance st nameRaw newID now res).2.pool.used) := by
  have hne : (trimSpaceGo nameRaw).isEmpty = false := by
    cases hcase : trimSpaceGo nameRaw with
    | nil => exact absurd hcase hname
    | cons a l => rfl
  rcases allocate_ok_shape st.pool port pool' halloc with ⟨hnotmem, hpool⟩
  constructor
  · intro hfail
    have hrel := release_after_allocate st.pool port pool' halloc
    simp only [handleCreateInstance, hne, Bool.false_eq_true, if_false, hdup,
      Option.isSome_none, halloc, hfail, hrel]
  · intro db' inst' hok
    simp only [handleCreateInstance, hne, Bool.false_eq_true, if_false, hdup,
      Option.isSome_none, halloc, hok]
    cases res <;> simp [hpool]

/-- Witness for C10: a concrete state where the insert fails (uuid-prefix
collision on the primary key) and one where it succeeds. -/
theorem c10_create_port_rollback_witness :
    handleCreateInstance
        ⟨[{ id := "deadbeef".data, name := "other".data, containerID := [],
            status := "created".data, errorMsg := [], port := 10001,
            workDir := "/root".data, envVars := [lbrace, rbrace],
            createdAt := 0, updatedAt := 0 }],
          ⟨10000, 10100, []⟩, []⟩
        "demo".data "deadbeef".data 5 (.ok "c9".data) =
      (CreateResp.serverError,
        ⟨[{ id := "deadbeef".data, name := "other".data, containerID := [],
            status := "created".data, errorMsg := [], port := 10001,
            workDir := "/root".data, envVars := [lbrace, rbrace],
            createdAt := 0, updatedAt := 0 }],
          ⟨10000, 10100, []⟩, []⟩) ∧
    10000 ∈ (handleCreateInstance ⟨[], ⟨10000, 10100, []⟩, []⟩
        "demo".data "deadbeef".data 5 (.ok "c9".data)).2.pool.used := by
  constructor
  · exact (c10_create_port_rollback
      ⟨[{ id := "deadbeef".data, name := "other".data, containerID := [],
          status := "created".data, errorMsg := [], port := 10001,
          workDir := "/root".data, envVars := [lbrace, rbrace],
          createdAt := 0, updatedAt := 0 }], ⟨10000, 10100, []⟩, []⟩
      "demo".data "deadbeef".data 5 (.ok "c9".data) 10000
      ⟨10000, 10100, [10000]⟩ (by decide) (by rfl) (by rfl)).1 (by rfl)
  · exact (c10_create_port_rollback ⟨[], ⟨10000, 10100, []⟩, []⟩
      "demo".data "deadbeef".data 5 (.ok "c9".data) 10000
      ⟨10000, 10100, [10000]⟩ (by decide) (by rfl) (by rfl)).2 _ _ (by rfl)

/-- **C4.** For every upstream response through the strip-prefix proxy: a
response whose `Content-Type` does not contain `text/html` is never
modified; an HTML response without a case-insensitive `<head>` passes
through byte-for-byte with `Content-Length` untouched; otherwise the fixed
isolation script is inserted immediately after the *first* case-insensitive
`<head>` occurrence and `Content-Length` is recomputed to the new body
length. -/
theorem c4_inject_isolation (id ct body : Str) :
    (containsSub ct "text/html".data = false →
      injectInstanceIsolation id ct body =
        { body := body, contentLength := none }) ∧
    (containsSub ct "text/html".data = true →
      containsSub (lowerS body) "<head>".data = false →
      injectInstanceIsolation id ct body =
        { body := body, contentLength := none }) ∧
    (∀ idx, containsSub ct "text/html".data = true →
      firstOccur (lowerS body) "<head>".data = some idx →
      occursAt (lowerS body) "<head>".data idx ∧
      (∀ j < idx, ¬ occursAt (lowerS body) "<head>".data j) ∧
      injectInstanceIsolation id ct body =
        { body := body.take (idx + 6) ++ isolationScript id ++ body.drop (idx + 6),
          contentLength := some ((body.take (idx + 6) ++ isolationScript id ++
            body.drop (idx + 6)).length) }) := by
  refine ⟨?_, ?_, ?_⟩
  · intro h
    simp only [injectInstanceIsolation, h, Bool.not_false, if_true]
  · intro h1 h2
    have hnone : firstOccur (lowerS body) "<head>".data = none := by
      have hi := firstOccur_isSome (lowerS body) "<head>".data
      rw [h2] at hi
      exact Option.not_isSome_iff_eq_none.mp (by simp [hi])
    simp only [injectInstanceIsolation, h1, Bool.not_true, Bool.false_eq_true,
      if_false, hnone]
  · intro idx h1 hfo
    rcases firstOccur_spec (lowerS body) "<head>".data idx hfo with ⟨hocc, hmin⟩
    refine ⟨hocc, hmin, ?_⟩
    have hlen : ("<head>".data).length = 6 := rfl
    simp only [injectInstanceIsolation, h1, Bool.not_true, Bool.false_eq_true,
      if_false, hfo, hlen]

/-- Witness for C4: a concrete HTML response with an upper-case `<HEAD>`
at index 6. -/
theorem c4_inject_isolation_witness :
    occursAt (lowerS "<HTML><HEAD><p>x".data) "<head>".data 6 ∧
    injectInstanceIsolation "abc123".data "text/html; charset=utf-8".data
        "<HTML><HEAD><p>x".data =
      { body := ("<HTML><HEAD><p>x".data).take (6 + 6) ++
          isolationScript "abc123".data ++ ("<HTML><HEAD><p>x".data).drop (6 + 6),
        contentLength := some ((("<HTML><HEAD><p>x".data).take (6 + 6) ++
          isolationScript "abc123".data ++
          ("<HTML><HEAD><p>x".data).drop (6 + 6)).length) } := by
  have h := (c4_inject_isolation "abc123".data "text/html; charset=utf-8".data
    "<HTML><HEAD><p>x".data).2.2 6 (by rfl) (by rfl)
  exact ⟨h.1, h.2.2⟩

theorem isShortLine_eq (line : Str) :
    (analyzeTemporalLine line).isShortLine =
      ((analyzeTemporalLine line).hasTemporal &&
        decide ((analyzeTemporalLine line).strippedText.length ≤ 30)) := by
  unfold analyzeTemporalLine
  rfl

theorem classifyGo_spec (ls : List Str) : ∀ i : Nat,
    (classifyGo i ls).1 = (List.enumFrom i ls).filterMap (fun p =>
      if (analyzeTemporalLine p.2).hasTemporal &&
          decide ((analyzeTemporalLine p.2).strippedText.length ≤ 30) then
        some ⟨p.1 + 1, trimJS p.2, temporalLineSignature p.2⟩
      else none) ∧
    (classifyGo i ls).2.1 = (List.enumFrom i ls).filterMap (fun p =>
      if (analyzeTemporalLine p.2).hasTemporal &&
          decide (30 < (analyzeTemporalLine p.2).strippedText.length) then
        some ⟨p.1 + 1, trimJS p.2, temporalLineSignature p.2,
          (analyzeTemporalLine p.2).matchedFragments⟩
      else none) ∧
    (classifyGo i ls).2.2 = ls.filter (fun l =>
      !((analyzeTemporalLine l).hasTemporal &&
        decide ((analyzeTemporalLine l).strippedText.length ≤ 30))) := by
  induction ls with
  | nil => intro i; exact ⟨rfl, rfl, rfl⟩
  | cons line rest ih =>
    intro i
    rcases ih (i + 1) with ⟨ih1, ih2, ih3⟩
    simp only [classifyGo, List.enumFrom, List.filterMap_cons, List.filter_cons,
      isShortLine_eq]
    by_cases hT : (analyzeTemporalLine line).hasTemporal = true
    · by_cases hS : (analyzeTemporalLine line).strippedText.length ≤ 30
      · simp [hT, hS, ih1, ih2, ih3, Nat.not_lt.mpr hS]
      · simp [hT, hS, ih1, ih2, ih3, Nat.lt_of_not_le hS]
    · have hT' : (analyzeTemporalLine line).hasTemporal = false :=
        Bool.not_eq_true _ ▸ (by simpa using hT)
      simp [hT', ih1, ih2, ih3]

/-- **C3.** For every line of the joined system prompt: if no temporal
pattern matches, the line is kept in the outgoing prompt unchanged; if
patterns match and the trimmed residual after stripping every pattern is at
most 30 characters, the line is dropped and recorded as removed; if
patterns match and the residual exceeds 30 characters, the line is kept but
recorded for a one-time operator notice — and the outgoing prompt written
back into `output.system` is exactly the kept lines re-joined. -/
theorem c3_temporal_line_classification :
    (∀ (st : WState) (inp : WInput) (sid : Str),
      inp.sessionID = some sid → sid ≠ [] → inp.system ≠ [] →
      (watchdogTransform st inp).2.2 =
        [joinNl ((splitNl (joinNl inp.system)).filter (fun l =>
          !((analyzeTemporalLine l).hasTemporal &&
            decide ((analyzeTemporalLine l).strippedText.length ≤ 30))))]) ∧
    (∀ rawLines : List Str,
      (classifyLines rawLines).2.2 = rawLines.filter (fun l =>
        !((analyzeTemporalLine l).hasTemporal &&
          decide ((analyzeTemporalLine l).strippedText.length ≤ 30))) ∧
      (classifyLines rawLines).1 = rawLines.enum.filterMap (fun p =>
        if (analyzeTemporalLine p.2).hasTemporal &&
            decide ((analyzeTemporalLine p.2).strippedText.length ≤ 30) then
          some ⟨p.1 + 1, trimJS p.2, temporalLineSignature p.2⟩
        else none) ∧
      (classifyLines rawLines).2.1 = rawLines.enum.filterMap (fun p =>
        if (analyzeTemporalLine p.2).hasTemporal &&
            decide (30 < (analyzeTemporalLine p.2).strippedText.length) then
          some ⟨p.1 + 1, trimJS p.2, temporalLineSignature p.2,
            (analyzeTemporalLine p.2).matchedFragments⟩
        else none)) := by
  constructor
  · intro st inp sid hs hsid hsys
    have hse : sid.isEmpty = false := by
      cases sid with
      | nil => exact absurd rfl hsid
      | cons a l => rfl
    have hye : inp.system.isEmpty = false := by
      cases hc : inp.system with
      | nil => exact absurd hc hsys
      | cons a l => rfl
    have hkept := (classifyGo_spec (splitNl (joinNl inp.system)) 0).2.2
    simp only [watchdogTransform, hs, hse, hye, Bool.or_self,
      Bool.false_eq_true, if_false, filteredTextOf]
    simp only [classifyLines]
    rw [hkept]
  · intro rawLines
    have h := classifyGo_spec rawLines 0
    simp only [classifyLines, List.enum]
    exact ⟨h.2.2, h.1, h.2.1⟩

/-- Witness for C3: the spec's example line is matched and short (dropped),
a date embedded in long prose is matched and long (kept + flagged), and an
ordinary line matches nothing (kept). -/
theorem c3_temporal_line_classification_witness :
    (watchdogTransform initialWState
        ⟨some "s1".data, some "m1".data,
          ["Current date: Thu, Feb 26, 2026\nKeep calm and carry on\nThe timestamp 2026-02-26T04:37:54Z was recorded in the operations journal today".data]⟩).2.2 =
      ["Keep calm and carry on\nThe timestamp 2026-02-26T04:37:54Z was recorded in the operations journal today".data] := by
  have h := (c3_temporal_line_classification).1 initialWState
    ⟨some "s1".data, some "m1".data,
      ["Current date: Thu, Feb 26, 2026\nKeep calm and carry on\nThe timestamp 2026-02-26T04:37:54Z was recorded in the operations journal today".data]⟩
    "s1".data (by rfl) (by decide) (by decide)
  rw [h]
  rfl

@[simp] theorem wTrack_globalPrev (sid tk : Str) (st : WState) :
    (wTrack sid tk st).globalPrevFilteredText = st.globalPrevFilteredText := rfl

@[simp] theorem wCallCount_globalPrev (tk : Str) (n : Nat) (st : WState) :
    (wCallCount tk n st).globalPrevFilteredText = st.globalPrevFilteredText := rfl

@[simp] theorem wFirstHash_globalPrev (tk h : Str) (b : Bool) (st : WState) :
    (wFirstHash tk h b st).globalPrevFilteredText = st.globalPrevFilteredText := by
  unfold wFirstHash
  split <;> rfl

@[simp] theorem wLastHash_globalPrev (tk h : Str) (st : WState) :
    (wLastHash tk h st).globalPrevFilteredText = st.globalPrevFilteredText := rfl

@[simp] theorem wRemovedCount_globalPrev (tk : Str) (n : Nat) (st : WState) :
    (wRemovedCount tk n st).globalPrevFilteredText = st.globalPrevFilteredText := rfl

@[simp] theorem wAlertCount_globalPrev (tk : Str) (n : Nat) (st : WState) :
    (wAlertCount tk n st).globalPrevFilteredText = st.globalPrevFilteredText := rfl

@[simp] theorem wNotifyInit_globalPrev (m : Str) (st : WState) :
    (wNotifyInit m st).globalPrevFilteredText = st.globalPrevFilteredText := by
  unfold wNotifyInit
  split <;> rfl

@[simp] theorem wNotify_globalPrev (m : Str) (ks : List Str) (st : WState) :
    (wNotify m ks st).globalPrevFilteredText = st.globalPrevFilteredText := rfl

@[simp] theorem wTotalDiff_globalPrev (tk : Str) (n : Nat) (st : WState) :
    (wTotalDiff tk n st).globalPrevFilteredText = st.globalPrevFilteredText := rfl

@[simp] theorem wDiffSummary_globalPrev (tk : Str) (xs : List Str) (st : WState) :
    (wDiffSummary tk xs st).globalPrevFilteredText = st.globalPrevFilteredText := rfl

@[simp] theorem wSetPrev_globalPrev (m t : Str) (st : WState) :
    (wSetPrev m t st).globalPrevFilteredText =
      aset st.globalPrevFilteredText m t := rfl

@[simp] theorem wStep4_globalPrev (m tk ft : Str) (cc : Nat) (st : WState) :
    (wStep4 m tk ft cc st).1.globalPrevFilteredText =
      st.globalPrevFilteredText := by
  unfold wStep4
  split
  · split
    · dsimp only
      split <;> rfl
    · rfl
  · rfl

@[simp] theorem wTrack_notified (sid tk : Str) (st : WState) :
    (wTrack sid tk st).notifiedTemporalLines = st.notifiedTemporalLines := rfl

@[simp] theorem wCallCount_notified (tk : Str) (n : Nat) (st : WState) :
    (wCallCount tk n st).notifiedTemporalLines = st.notifiedTemporalLines := rfl

@[simp] theorem wFirstHash_notified (tk h : Str) (b : Bool) (st : WState) :
    (wFirstHash tk h b st).notifiedTemporalLines = st.notifiedTemporalLines := by
  unfold wFirstHash
  split <;> rfl

@[simp] theorem wLastHash_notified (tk h : Str) (st : WState) :
    (wLastHash tk h st).notifiedTemporalLines = st.notifiedTemporalLines := rfl

@[simp] theorem wRemovedCount_notified (tk : Str) (n : Nat) (st : WState) :
    (wRemovedCount tk n st).notifiedTemporalLines = st.notifiedTemporalLines := rfl

@[simp] theorem wAlertCount_notified (tk : Str) (n : Nat) (st : WState) :
    (wAlertCount tk n st).notifiedTemporalLines = st.notifiedTemporalLines := rfl

@[simp] theorem wSetPrev_notified (m t : Str) (st : WState) :
    (wSetPrev m t st).notifiedTemporalLines = st.notifiedTemporalLines := rfl

@[simp] theorem wTotalDiff_notified (tk : Str) (n : Nat) (st : WState) :
    (wTotalDiff tk n st).notifiedTemporalLines = st.notifiedTemporalLines := rfl

@[simp] theorem wDiffSummary_notified (tk : Str) (xs : List Str) (st : WState) :
    (wDiffSummary tk xs st).notifiedTemporalLines = st.notifiedTemporalLines := rfl

@[simp] theorem wStep4_notified (m tk ft : Str) (cc : Nat) (st : WState) :
    (wStep4 m tk ft cc st).1.notifiedTemporalLines =
      st.notifiedTemporalLines := by
  unfold wStep4
  split
  · split
    · dsimp only
      split <;> rfl
    · rfl
  · rfl

@[simp] theorem wNotify_notified (m : Str) (ks : List Str) (st : WState) :
    (wNotify m ks st).notifiedTemporalLines =
      aset st.notifiedTemporalLines m
        (saddAll ((alookup st.notifiedTemporalLines m).getD []) ks) := rfl

theorem alookup_aset_self {α : Type} (m : List (Str × α)) (k : Str) (v : α) :
    alookup (aset m k v) k = some v := by
  induction m with
  | nil => simp [aset, alookup]
  | cons p rest ih =>
    by_cases hk : p.1 = k
    · simp [aset, hk, alookup]
    · simp [aset, hk, alookup, ih]

theorem alookup_aset_ne {α : Type} (m : List (Str × α)) (k k' : Str) (v : α)
    (h : k' ≠ k) : alookup (aset m k v) k' = alookup m k' := by
  induction m with
  | nil => simp [aset, alookup, Ne.symm h]
  | cons p rest ih =>
    by_cases hk : p.1 = k
    · subst hk
      simp [aset, alookup, Ne.symm h]
    · simp only [aset, hk, if_false]
      by_cases hk' : p.1 = k'
      · simp [alookup, hk']
      · simp [alookup, hk', ih]

theorem splitNl_ne_nil (s : Str) : splitNl s ≠ [] := by
  cases s with
  | nil => simp [splitNl]
  | cons c rest =>
    simp only [splitNl]
    split
    · simp
    · split <;> simp

theorem joinNl_cons_cons (l l2 : Str) (ls : List Str) :
    joinNl (l :: l2 :: ls) = l ++ '\n' :: joinNl (l2 :: ls) := rfl

theorem joinNl_splitNl (s : Str) : joinNl (splitNl s) = s := by
  induction s with
  | nil => rfl
  | cons c rest ih =>
    simp only [splitNl]
    by_cases hc : c = '\n'
    · rw [if_pos hc]
      cases hrest : splitNl rest with
      | nil => exact absurd hrest (splitNl_ne_nil rest)
      | cons l ls =>
        rw [hrest] at ih
        rw [joinNl_cons_cons, ih, hc]
        rfl
    · rw [if_neg hc]
      cases hrest : splitNl rest with
      | nil => exact absurd hrest (splitNl_ne_nil rest)
      | cons l ls =>
        rw [hrest] at ih
        show joinNl ((c :: l) :: ls) = c :: rest
        cases ls with
        | nil =>
          show joinNl [c :: l] = c :: rest
          have hl : l = rest := ih
          simp [joinNl, hl]
        | cons l2 ls2 =>
          show joinNl ((c :: l) :: l2 :: ls2) = c :: rest
          rw [joinNl_cons_cons] at ih
          rw [joinNl_cons_cons, List.cons_append, ih]

theorem splitNl_injective {a b : Str} (h : splitNl a = splitNl b) : a = b := by
  have ha := joinNl_splitNl a
  have hb := joinNl_splitNl b
  rw [← ha, ← hb, h]

theorem diffLines_ne_nil {a b : Str} (h : a ≠ b) : diffLines a b ≠ [] := by
  intro hnil
  apply h
  apply splitNl_injective
  unfold diffLines at hnil
  rw [List.filterMap_eq_nil_iff] at hnil
  apply List.ext_getElem?
  intro i
  by_cases hi : i < max (splitNl a).length (splitNl b).length
  · have hmem := hnil i (List.mem_range.mpr hi)
    cases hga : (splitNl a)[i]? with
    | none =>
      cases hgb : (splitNl b)[i]? with
      | none => rfl
      | some bl => rw [hga, hgb] at hmem; simp at hmem
    | some al =>
      cases hgb : (splitNl b)[i]? with
      | none => rw [hga, hgb] at hmem; simp at hmem
      | some bl =>
        rw [hga, hgb] at hmem
        by_cases hab : al = bl
        · rw [hab]
        · simp [hab] at hmem
  · have ha : (splitNl a).length ≤ i := by omega
    have hb : (splitNl b).length ≤ i := by omega
    rw [List.getElem?_eq_none ha, List.getElem?_eq_none hb]

theorem list_isEmpty_false_of_ne_nil {α : Type} {l : List α} (h : l ≠ []) :
    l.isEmpty = false := by
  cases l with
  | nil => exact absurd rfl h
  | cons x xs => rfl

theorem watchdogStep_baseline (st : WState) (inp : WInput) (sid prev : Str)
    (hprev : alookup st.globalPrevFilteredText (modelIDOf inp) = some prev)
    (hne : prev ≠ filteredTextOf inp) :
    (∃ evR evA,
      ((watchdogStep st inp sid).2 = evR ++ evA ++
        [WEvent.driftAlert (modelIDOf inp)
          ((alookup st.callCountMap (sid ++ ':' :: modelIDOf inp)).getD 0 + 1)
          (diffLines prev (filteredTextOf inp)).length
          ((groupDiffsIntoBlocks (diffLines prev (filteredTextOf inp))).take 5)]) ∧
      (evR = [] ∨ ∃ ls, evR = [WEvent.removedNotice (modelIDOf inp) ls]) ∧
      (evA = [] ∨ ∃ ls, evA = [WEvent.alertNotice (modelIDOf inp) ls])) ∧
    alookup (watchdogStep st inp sid).1.globalPrevFilteredText
      (modelIDOf inp) = some (filteredTextOf inp) := by
  have hdiffne : diffLines prev (filteredTextOf inp) ≠ [] := diffLines_ne_nil hne
  have hdiff := list_isEmpty_false_of_ne_nil hdiffne
  unfold watchdogStep
  simp only [wNotifyInit_globalPrev, wAlertCount_globalPrev,
    wRemovedCount_globalPrev, wLastHash_globalPrev, wFirstHash_globalPrev,
    wCallCount_globalPrev, wTrack_globalPrev, hprev, Option.isNone_some,
    Bool.false_and, Bool.false_eq_true, if_false]
  rw [show joinNl (classifyLines (splitNl (joinNl inp.system))).2.2 =
    filteredTextOf inp from rfl]
  split <;> split <;>
    simp only [wStep4, wNotify_globalPrev, wNotifyInit_globalPrev,
      wAlertCount_globalPrev, wRemovedCount_globalPrev, wLastHash_globalPrev,
      wFirstHash_globalPrev, wCallCount_globalPrev, wTrack_globalPrev, hprev,
      ne_eq, hne, not_false_eq_true, if_true, hdiff, Bool.false_eq_true,
      if_false, wSetPrev_globalPrev, wDiffSummary_globalPrev,
      wTotalDiff_globalPrev, alookup_aset_self]
  · exact ⟨⟨[], [], rfl, Or.inl rfl, Or.inl rfl⟩, trivial⟩
  · exact ⟨⟨[], [_], rfl, Or.inl rfl, Or.inr ⟨_, rfl⟩⟩, trivial⟩
  · exact ⟨⟨[_], [], rfl, Or.inr ⟨_, rfl⟩, Or.inl rfl⟩, trivial⟩
  · exact ⟨⟨[_], [_], rfl, Or.inr ⟨_, rfl⟩, Or.inr ⟨_, rfl⟩⟩, trivial⟩

def c1TextA : Str :=
  "a0\na1\na2\na3\na4\na5\na6\na7\na8\na9\na10".data

def c1TextB : Str :=
  "b0\nb1\nb2\nb3\nb4\nb5\nb6\nb7\nb8\nb9\nb10".data

def c1Inp1 : WInput := ⟨some "s1".data, some "m1".data, [c1TextA]⟩

def c1Inp2 : WInput := ⟨some "s1".data, some "m1".data, [c1TextB]⟩

def c1Run : WState × List WEvent := watchdogRun [c1Inp1, c1Inp2]

def c1Mid : WState := (watchdogTransform initialWState c1Inp1).1

/-- C1 (counterexample): an 11-line full rewrite of the prompt (every line
changed, so the number of changed lines is 10 or more) nevertheless produces
exactly one structural-drift alert, and the stored baseline IS replaced with
the new filtered text — the code at steps 4 of the transform hook has no
10-line large-rewrite threshold at all. -/
theorem c1_structural_drift_counterexample :
    10 ≤ (diffLines c1TextA c1TextB).length ∧
    driftEventCount c1Run.2 ("m1".data) = 1 ∧
    alookup c1Run.1.globalPrevFilteredText ("m1".data) = some c1TextB ∧
    c1TextB ≠ c1TextA := by
  refine ⟨by decide, rfl, rfl, by decide⟩

/-- C1 (amended): in the transform hook, whenever the guards pass and the
agent identity already has a stored baseline filtered prompt that differs
from the new filtered prompt, the hook ALWAYS emits exactly one
structural-drift alert and ALWAYS replaces the baseline with the new
filtered text, regardless of how many lines changed — there is no 10-line
threshold and no branch that withholds the alert or preserves the old
baseline. -/
theorem c1_structural_drift_amended (st : WState) (inp : WInput)
    (sid prev : Str)
    (hsid : inp.sessionID = some sid) (hsidne : sid.isEmpty = false)
    (hsys : inp.system.isEmpty = false)
    (hprev : alookup st.globalPrevFilteredText (modelIDOf inp) = some prev)
    (hne : prev ≠ filteredTextOf inp) :
    driftEventCount (watchdogTransform st inp).2.1 (modelIDOf inp) = 1 ∧
    alookup (watchdogTransform st inp).1.globalPrevFilteredText
      (modelIDOf inp) = some (filteredTextOf inp) := by
  obtain ⟨⟨evR, evA, hev, hR, hA⟩, hbase⟩ :=
    watchdogStep_baseline st inp sid prev hprev hne
  unfold watchdogTransform
  rw [hsid]
  simp only [hsidne, hsys, Bool.or_self, Bool.false_eq_true, if_false]
  refine ⟨?_, hbase⟩
  rw [show (watchdogStep st inp sid).2 = evR ++ evA ++
    [WEvent.driftAlert (modelIDOf inp)
      ((alookup st.callCountMap (sid ++ ':' :: modelIDOf inp)).getD 0 + 1)
      (diffLines prev (filteredTextOf inp)).length
      ((groupDiffsIntoBlocks (diffLines prev (filteredTextOf inp))).take 5)]
    from hev]
  rcases hR with rfl | ⟨ls, rfl⟩ <;> rcases hA with rfl | ⟨ls2, rfl⟩ <;>
    simp [driftEventCount, List.filter_append]

/-- Witness for C1 (amended): the second call of the counterexample run,
applied through the general theorem. -/
theorem c1_structural_drift_amended_witness :
    driftEventCount (watchdogTransform c1Mid c1Inp2).2.1 (modelIDOf c1Inp2) = 1 ∧
    alookup (watchdogTransform c1Mid c1Inp2).1.globalPrevFilteredText
      (modelIDOf c1Inp2) = some (filteredTextOf c1Inp2) :=
  c1_structural_drift_amended c1Mid c1Inp2 ("s1".data) c1TextA rfl rfl rfl rfl
    (by decide)

theorem mem_sadd_left {s : List Str} {x : Str} (y : Str) (h : x ∈ s) :
    x ∈ sadd s y := by
  unfold sadd
  split
  · exact h
  · exact List.mem_append_left _ h

theorem mem_sadd_self (s : List Str) (y : Str) : y ∈ sadd s y := by
  unfold sadd
  split
  · assumption
  · exact List.mem_append_right _ (List.mem_singleton.2 rfl)

theorem mem_saddAll_left {s : List Str} {x : Str} (xs : List Str)
    (h : x ∈ s) : x ∈ saddAll s xs := by
  induction xs generalizing s with
  | nil => exact h
  | cons y ys ih => exact ih (mem_sadd_left y h)

theorem mem_saddAll_right {xs : List Str} {x : Str} (s : List Str)
    (h : x ∈ xs) : x ∈ saddAll s xs := by
  induction xs generalizing s with
  | nil => cases h
  | cons y ys ih =>
    show x ∈ saddAll (sadd s y) ys
    rcases List.mem_cons.1 h with rfl | hy
    · exact mem_saddAll_left ys (mem_sadd_self s x)
    · exact ih (sadd s y) hy

@[simp] theorem alookup_wNotifyInit_getD (m' m : Str) (st : WState) :
    (alookup (wNotifyInit m' st).notifiedTemporalLines m).getD [] =
    (alookup st.notifiedTemporalLines m).getD [] := by
  unfold wNotifyInit
  split
  · by_cases hm : m' = m
    · subst hm
      rename_i hnone
      rw [Option.isNone_iff_eq_none] at hnone
      simp only [alookup_aset_self, hnone]
      rfl
    · simp only [alookup_aset_ne _ _ _ _ (Ne.symm hm)]
  · rfl

theorem removedEventCount_nil (m sig : Str) :
    removedEventCount [] m sig = 0 := rfl

theorem alertEventCount_nil (m sig : Str) :
    alertEventCount [] m sig = 0 := rfl

theorem removedEventCount_append (l1 l2 : List WEvent) (m sig : Str) :
    removedEventCount (l1 ++ l2) m sig =
    removedEventCount l1 m sig + removedEventCount l2 m sig := by
  simp [removedEventCount, List.filter_append]

theorem alertEventCount_append (l1 l2 : List WEvent) (m sig : Str) :
    alertEventCount (l1 ++ l2) m sig =
    alertEventCount l1 m sig + alertEventCount l2 m sig := by
  simp [alertEventCount, List.filter_append]

theorem removedEventCount_single_le (e : WEvent) (m sig : Str) :
    removedEventCount [e] m sig ≤ 1 := by
  simp only [removedEventCount, List.filter_cons, List.filter_nil]
  split <;> simp

theorem alertEventCount_single_le (e : WEvent) (m sig : Str) :
    alertEventCount [e] m sig ≤ 1 := by
  simp only [alertEventCount, List.filter_cons, List.filter_nil]
  split <;> simp

theorem removedEventCount_single_pos (e : WEvent) (m sig : Str) :
    1 ≤ removedEventCount [e] m sig ↔ eventMentionsRemoved e m sig = true := by
  simp only [removedEventCount, List.filter_cons, List.filter_nil]
  split <;> simp_all

theorem alertEventCount_single_pos (e : WEvent) (m sig : Str) :
    1 ≤ alertEventCount [e] m sig ↔ eventMentionsAlert e m sig = true := by
  simp only [alertEventCount, List.filter_cons, List.filter_nil]
  split <;> simp_all

theorem removedEventCount_single_zero (e : WEvent) (m sig : Str)
    (h : eventMentionsRemoved e m sig = false) :
    removedEventCount [e] m sig = 0 := by
  simp [removedEventCount, List.filter_cons, h]

theorem alertEventCount_single_zero (e : WEvent) (m sig : Str)
    (h : eventMentionsAlert e m sig = false) :
    alertEventCount [e] m sig = 0 := by
  simp [alertEventCount, List.filter_cons, h]

theorem removedEventCount_alertNotice (mID m sig : Str) (ls : List AlertLine) :
    removedEventCount [WEvent.alertNotice mID ls] m sig = 0 := rfl

theorem alertEventCount_removedNotice (mID m sig : Str) (ls : List RemovedLine) :
    alertEventCount [WEvent.removedNotice mID ls] m sig = 0 := rfl

theorem removedEventCount_wStep4 (mw tk ft : Str) (cc : Nat) (st : WState)
    (m sig : Str) : removedEventCount (wStep4 mw tk ft cc st).2 m sig = 0 := by
  unfold wStep4
  cases alookup st.globalPrevFilteredText mw with
  | none => rfl
  | some p =>
    dsimp only
    split
    · split
      · rfl
      · rfl
    · rfl

theorem alertEventCount_wStep4 (mw tk ft : Str) (cc : Nat) (st : WState)
    (m sig : Str) : alertEventCount (wStep4 mw tk ft cc st).2 m sig = 0 := by
  unfold wStep4
  cases alookup st.globalPrevFilteredText mw with
  | none => rfl
  | some p =>
    dsimp only
    split
    · split
      · rfl
      · rfl
    · rfl

theorem eventMentionsRemoved_active_iff (mID fh m sig : Str)
    (rs : List RemovedLine) (as : List AlertLine) :
    eventMentionsRemoved (WEvent.active mID fh rs as) m sig = true ↔
    mID = m ∧ ∃ r ∈ rs, r.signature = sig := by
  simp [eventMentionsRemoved, List.any_eq_true]

theorem eventMentionsRemoved_notice_iff (mID m sig : Str)
    (rs : List RemovedLine) :
    eventMentionsRemoved (WEvent.removedNotice mID rs) m sig = true ↔
    mID = m ∧ ∃ r ∈ rs, r.signature = sig := by
  simp [eventMentionsRemoved, List.any_eq_true]

theorem eventMentionsAlert_active_iff (mID fh m sig : Str)
    (rs : List RemovedLine) (as : List AlertLine) :
    eventMentionsAlert (WEvent.active mID fh rs as) m sig = true ↔
    mID = m ∧ ∃ a ∈ as, a.signature = sig := by
  simp [eventMentionsAlert, List.any_eq_true]

theorem eventMentionsAlert_notice_iff (mID m sig : Str)
    (as : List AlertLine) :
    eventMentionsAlert (WEvent.alertNotice mID as) m sig = true ↔
    mID = m ∧ ∃ a ∈ as, a.signature = sig := by
  simp [eventMentionsAlert, List.any_eq_true]

def wInv (st : WState) : Prop :=
  ∀ m, alookup st.globalPrevFilteredText m = none →
    (alookup st.notifiedTemporalLines m).getD [] = []

theorem wInv_initial : wInv initialWState := by
  intro m _
  rfl

theorem watchdogStep_globalPrev (st : WState) (inp : WInput) (sid : Str) :
    (watchdogStep st inp sid).1.globalPrevFilteredText =
    aset st.globalPrevFilteredText (modelIDOf inp) (filteredTextOf inp) := by
  unfold watchdogStep
  dsimp only
  split
  · simp only [wSetPrev_globalPrev, wNotify_globalPrev, wNotifyInit_globalPrev,
      wAlertCount_globalPrev, wRemovedCount_globalPrev, wLastHash_globalPrev,
      wFirstHash_globalPrev, wCallCount_globalPrev, wTrack_globalPrev,
      filteredTextOf]
  · split <;> split <;>
      simp only [wSetPrev_globalPrev, wStep4_globalPrev, wNotify_globalPrev,
        wNotifyInit_globalPrev, wAlertCount_globalPrev, wRemovedCount_globalPrev,
        wLastHash_globalPrev, wFirstHash_globalPrev, wCallCount_globalPrev,
        wTrack_globalPrev, filteredTextOf]

theorem watchdogStep_notified_getD_ne (st : WState) (inp : WInput)
    (sid m : Str) (hmm : m ≠ modelIDOf inp) :
    (alookup (watchdogStep st inp sid).1.notifiedTemporalLines m).getD [] =
    (alookup st.notifiedTemporalLines m).getD [] := by
  unfold watchdogStep
  dsimp only
  split
  · simp only [wSetPrev_notified, wNotify_notified, alookup_aset_ne _ _ _ _ hmm,
      wTrack_notified, wCallCount_notified, wFirstHash_notified,
      wLastHash_notified, wRemovedCount_notified, wAlertCount_notified,
      alookup_wNotifyInit_getD]
  · split <;> split <;>
      simp only [wSetPrev_notified, wStep4_notified, wNotify_notified,
        alookup_aset_ne _ _ _ _ hmm, wTrack_notified, wCallCount_notified,
        wFirstHash_notified, wLastHash_notified, wRemovedCount_notified,
        wAlertCount_notified, alookup_wNotifyInit_getD]

theorem watchdogStep_inv (st : WState) (inp : WInput) (sid : Str)
    (hInv : wInv st) : wInv (watchdogStep st inp sid).1 := by
  intro m hm
  rw [watchdogStep_globalPrev] at hm
  by_cases hmm : m = modelIDOf inp
  · subst hmm
    rw [alookup_aset_self] at hm
    exact Option.noConfusion hm
  · rw [alookup_aset_ne _ _ _ _ hmm] at hm
    rw [watchdogStep_notified_getD_ne st inp sid m hmm]
    exact hInv m hm

theorem watchdogStep_removed (st : WState) (inp : WInput) (sid m sig : Str)
    (hInv : wInv st) :
    removedEventCount (watchdogStep st inp sid).2 m sig ≤ 1 ∧
    (removedKeyOf sig ∈ (alookup st.notifiedTemporalLines m).getD [] →
      removedEventCount (watchdogStep st inp sid).2 m sig = 0) ∧
    (1 ≤ removedEventCount (watchdogStep st inp sid).2 m sig →
      removedKeyOf sig ∈
        (alookup (watchdogStep st inp sid).1.notifiedTemporalLines m).getD []) ∧
    (removedKeyOf sig ∈ (alookup st.notifiedTemporalLines m).getD [] →
      removedKeyOf sig ∈
        (alookup (watchdogStep st inp sid).1.notifiedTemporalLines m).getD []) := by
  unfold watchdogStep
  dsimp only
  split
  · rename_i hg
    rw [Bool.and_eq_true] at hg
    obtain ⟨hg1, _⟩ := hg
    rw [Option.isNone_iff_eq_none] at hg1
    simp only [wNotifyInit_globalPrev, wAlertCount_globalPrev,
      wRemovedCount_globalPrev, wLastHash_globalPrev, wFirstHash_globalPrev,
      wCallCount_globalPrev, wTrack_globalPrev] at hg1
    dsimp only
    refine ⟨removedEventCount_single_le _ _ _, ?_, ?_, ?_⟩
    · intro hmem
      by_cases hmm : modelIDOf inp = m
      · subst hmm
        rw [hInv _ hg1] at hmem
        exact absurd hmem (List.not_mem_nil _)
      · exact removedEventCount_single_zero _ _ _
          (by simp [eventMentionsRemoved, hmm])
    · intro hone
      rw [removedEventCount_single_pos, eventMentionsRemoved_active_iff] at hone
      obtain ⟨hmm, r, hr, hrsig⟩ := hone
      subst hmm
      simp only [wSetPrev_notified, wNotify_notified, alookup_aset_self,
        Option.getD_some]
      exact mem_saddAll_right _ (List.mem_append_left _
        (List.mem_map.2 ⟨r, hr, by rw [hrsig]⟩))
    · intro hmem
      by_cases hmm : m = modelIDOf inp
      · subst hmm
        simp only [wSetPrev_notified, wNotify_notified, alookup_aset_self,
          Option.getD_some]
        apply mem_saddAll_left
        simpa only [wTrack_notified, wCallCount_notified, wFirstHash_notified,
          wLastHash_notified, wRemovedCount_notified, wAlertCount_notified,
          alookup_wNotifyInit_getD] using hmem
      · simp only [wSetPrev_notified, wNotify_notified,
          alookup_aset_ne _ _ _ _ hmm, wTrack_notified, wCallCount_notified,
          wFirstHash_notified, wLastHash_notified, wRemovedCount_notified,
          wAlertCount_notified, alookup_wNotifyInit_getD]
        exact hmem
  · split <;> split <;> dsimp only <;>
      simp only [removedEventCount_append, removedEventCount_nil,
        removedEventCount_alertNotice, removedEventCount_wStep4,
        Nat.add_zero, Nat.zero_add]
    · -- step3 empty, step3b empty
      refine ⟨Nat.zero_le _, fun _ => trivial, fun hone => absurd hone (by omega), ?_⟩
      intro hmem
      by_cases hmm : m = modelIDOf inp
      · subst hmm
        simp only [wSetPrev_notified, wStep4_notified, wTrack_notified,
          wCallCount_notified, wFirstHash_notified, wLastHash_notified,
          wRemovedCount_notified, wAlertCount_notified, alookup_wNotifyInit_getD]
        exact hmem
      · simp only [wSetPrev_notified, wStep4_notified, wTrack_notified,
          wCallCount_notified, wFirstHash_notified, wLastHash_notified,
          wRemovedCount_notified, wAlertCount_notified, alookup_wNotifyInit_getD]
        exact hmem
    · -- step3 empty, step3b nonempty
      refine ⟨Nat.zero_le _, fun _ => trivial, fun hone => absurd hone (by omega), ?_⟩
      intro hmem
      by_cases hmm : m = modelIDOf inp
      · subst hmm
        simp only [wSetPrev_notified, wStep4_notified, wNotify_notified,
          alookup_aset_self, Option.getD_some, wTrack_notified,
          wCallCount_notified, wFirstHash_notified, wLastHash_notified,
          wRemovedCount_notified, wAlertCount_notified, alookup_wNotifyInit_getD]
        exact mem_saddAll_left _ hmem
      · simp only [wSetPrev_notified, wStep4_notified, wNotify_notified,
          alookup_aset_ne _ _ _ _ hmm, wTrack_notified, wCallCount_notified,
          wFirstHash_notified, wLastHash_notified, wRemovedCount_notified,
          wAlertCount_notified, alookup_wNotifyInit_getD]
        exact hmem
    · -- step3 nonempty, step3b empty
      refine ⟨removedEventCount_single_le _ _ _, ?_, ?_, ?_⟩
      · intro hmem
        apply removedEventCount_single_zero
        rw [Bool.eq_false_iff]
        rw [Ne, eventMentionsRemoved_notice_iff]
        rintro ⟨hmm, r, hr, hrsig⟩
        subst hmm
        rw [List.mem_filter] at hr
        obtain ⟨-, hcond⟩ := hr
        rw [hrsig] at hcond
        simp only [wTrack_notified, wCallCount_notified, wFirstHash_notified,
          wLastHash_notified, wRemovedCount_notified, wAlertCount_notified,
          alookup_wNotifyInit_getD, Bool.not_eq_eq_eq_not, Bool.not_true,
          decide_eq_false_iff_not] at hcond
        exact hcond hmem
      · intro hone
        rw [removedEventCount_single_pos, eventMentionsRemoved_notice_iff] at hone
        obtain ⟨hmm, r, hr, hrsig⟩ := hone
        subst hmm
        simp only [wSetPrev_notified, wStep4_notified, wNotify_notified,
          alookup_aset_self, Option.getD_some]
        exact mem_saddAll_right _ (List.mem_map.2 ⟨r, hr, by rw [hrsig]⟩)
      · intro hmem
        by_cases hmm : m = modelIDOf inp
        · subst hmm
          simp only [wSetPrev_notified, wStep4_notified, wNotify_notified,
            alookup_aset_self, Option.getD_some, wTrack_notified,
            wCallCount_notified, wFirstHash_notified, wLastHash_notified,
            wRemovedCount_notified, wAlertCount_notified,
            alookup_wNotifyInit_getD]
          exact mem_saddAll_left _ hmem
        · simp only [wSetPrev_notified, wStep4_notified, wNotify_notified,
            alookup_aset_ne _ _ _ _ hmm, wTrack_notified, wCallCount_notified,
            wFirstHash_notified, wLastHash_notified, wRemovedCount_notified,
            wAlertCount_notified, alookup_wNotifyInit_getD]
          exact hmem
    · -- step3 nonempty, step3b nonempty
      refine ⟨removedEventCount_single_le _ _ _, ?_, ?_, ?_⟩
      · intro hmem
        apply removedEventCount_single_zero
        rw [Bool.eq_false_iff]
        rw [Ne, eventMentionsRemoved_notice_iff]
        rintro ⟨hmm, r, hr, hrsig⟩
        subst hmm
        rw [List.mem_filter] at hr
        obtain ⟨-, hcond⟩ := hr
        rw [hrsig] at hcond
        simp only [wTrack_notified, wCallCount_notified, wFirstHash_notified,
          wLastHash_notified, wRemovedCount_notified, wAlertCount_notified,
          alookup_wNotifyInit_getD, Bool.not_eq_eq_eq_not, Bool.not_true,
          decide_eq_false_iff_not] at hcond
        exact hcond hmem
      · intro hone
        rw [removedEventCount_single_pos, eventMentionsRemoved_notice_iff] at hone
        obtain ⟨hmm, r, hr, hrsig⟩ := hone
        subst hmm
        simp only [wSetPrev_notified, wStep4_notified, wNotify_notified,
          alookup_aset_self, Option.getD_some]
        exact mem_saddAll_left _
          (mem_saddAll_right _ (List.mem_map.2 ⟨r, hr, by rw [hrsig]⟩))
      · intro hmem
        by_cases hmm : m = modelIDOf inp
        · subst hmm
          simp only [wSetPrev_notified, wStep4_notified, wNotify_notified,
            alookup_aset_self, Option.getD_some, wTrack_notified,
            wCallCount_notified, wFirstHash_notified, wLastHash_notified,
            wRemovedCount_notified, wAlertCount_notified,
            alookup_wNotifyInit_getD]
          exact mem_saddAll_left _ (mem_saddAll_left _ hmem)
        · simp only [wSetPrev_notified, wStep4_notified, wNotify_notified,
            alookup_aset_ne _ _ _ _ hmm, wTrack_notified, wCallCount_notified,
            wFirstHash_notified, wLastHash_notified, wRemovedCount_notified,
            wAlertCount_notified, alookup_wNotifyInit_getD]
          exact hmem

theorem watchdogStep_alert (st : WState) (inp : WInput) (sid m sig : Str)
    (hInv : wInv st) :
    alertEventCount (watchdogStep st inp sid).2 m sig ≤ 1 ∧
    (alertKeyOf sig ∈ (alookup st.notifiedTemporalLines m).getD [] →
      alertEventCount (watchdogStep st inp sid).2 m sig = 0) ∧
    (1 ≤ alertEventCount (watchdogStep st inp sid).2 m sig →
      alertKeyOf sig ∈
        (alookup (watchdogStep st inp sid).1.notifiedTemporalLines m).getD []) ∧
    (alertKeyOf sig ∈ (alookup st.notifiedTemporalLines m).getD [] →
      alertKeyOf sig ∈
        (alookup (watchdogStep st inp sid).1.notifiedTemporalLines m).getD []) := by
  unfold watchdogStep
  dsimp only
  split
  · rename_i hg
    rw [Bool.and_eq_true] at hg
    obtain ⟨hg1, _⟩ := hg
    rw [Option.isNone_iff_eq_none] at hg1
    simp only [wNotifyInit_globalPrev, wAlertCount_globalPrev,
      wRemovedCount_globalPrev, wLastHash_globalPrev, wFirstHash_globalPrev,
      wCallCount_globalPrev, wTrack_globalPrev] at hg1
    dsimp only
    refine ⟨alertEventCount_single_le _ _ _, ?_, ?_, ?_⟩
    · intro hmem
      by_cases hmm : modelIDOf inp = m
      · subst hmm
        rw [hInv _ hg1] at hmem
        exact absurd hmem (List.not_mem_nil _)
      · exact alertEventCount_single_zero _ _ _
          (by simp [eventMentionsAlert, hmm])
    · intro hone
      rw [alertEventCount_single_pos, eventMentionsAlert_active_iff] at hone
      obtain ⟨hmm, a, ha, hasig⟩ := hone
      subst hmm
      simp only [wSetPrev_notified, wNotify_notified, alookup_aset_self,
        Option.getD_some]
      exact mem_saddAll_right _ (List.mem_append_right _
        (List.mem_map.2 ⟨a, ha, by rw [hasig]⟩))
    · intro hmem
      by_cases hmm : m = modelIDOf inp
      · subst hmm
        simp only [wSetPrev_notified, wNotify_notified, alookup_aset_self,
          Option.getD_some]
        apply mem_saddAll_left
        simpa only [wTrack_notified, wCallCount_notified, wFirstHash_notified,
          wLastHash_notified, wRemovedCount_notified, wAlertCount_notified,
          alookup_wNotifyInit_getD] using hmem
      · simp only [wSetPrev_notified, wNotify_notified,
          alookup_aset_ne _ _ _ _ hmm, wTrack_notified, wCallCount_notified,
          wFirstHash_notified, wLastHash_notified, wRemovedCount_notified,
          wAlertCount_notified, alookup_wNotifyInit_getD]
        exact hmem
  · split <;> split <;> dsimp only <;>
      simp only [alertEventCount_append, alertEventCount_nil,
        alertEventCount_removedNotice, alertEventCount_wStep4,
        Nat.add_zero, Nat.zero_add]
    · -- step3 empty, step3b empty
      refine ⟨Nat.zero_le _, fun _ => trivial, fun hone => absurd hone (by omega), ?_⟩
      intro hmem
      by_cases hmm : m = modelIDOf inp
      · subst hmm
        simp only [wSetPrev_notified, wStep4_notified, wTrack_notified,
          wCallCount_notified, wFirstHash_notified, wLastHash_notified,
          wRemovedCount_notified, wAlertCount_notified, alookup_wNotifyInit_getD]
        exact hmem
      · simp only [wSetPrev_notified, wStep4_notified, wTrack_notified,
          wCallCount_notified, wFirstHash_notified, wLastHash_notified,
          wRemovedCount_notified, wAlertCount_notified, alookup_wNotifyInit_getD]
        exact hmem
    · -- step3 empty, step3b nonempty
      refine ⟨alertEventCount_single_le _ _ _, ?_, ?_, ?_⟩
      · intro hmem
        apply alertEventCount_single_zero
        rw [Bool.eq_false_iff]
        rw [Ne, eventMentionsAlert_notice_iff]
        rintro ⟨hmm, a, ha, hasig⟩
        subst hmm
        rw [List.mem_filter] at ha
        obtain ⟨-, hcond⟩ := ha
        rw [hasig] at hcond
        simp only [wTrack_notified, wCallCount_notified, wFirstHash_notified,
          wLastHash_notified, wRemovedCount_notified, wAlertCount_notified,
          alookup_wNotifyInit_getD, Bool.not_eq_eq_eq_not, Bool.not_true,
          decide_eq_false_iff_not] at hcond
        exact hcond hmem
      · intro hone
        rw [alertEventCount_single_pos, eventMentionsAlert_notice_iff] at hone
        obtain ⟨hmm, a, ha, hasig⟩ := hone
        subst hmm
        simp only [wSetPrev_notified, wStep4_notified, wNotify_notified,
          alookup_aset_self, Option.getD_some]
        exact mem_saddAll_right _ (List.mem_map.2 ⟨a, ha, by rw [hasig]⟩)
      · intro hmem
        by_cases hmm : m = modelIDOf inp
        · subst hmm
          simp only [wSetPrev_notified, wStep4_notified, wNotify_notified,
            alookup_aset_self, Option.getD_some, wTrack_notified,
            wCallCount_notified, wFirstHash_notified, wLastHash_notified,
            wRemovedCount_notified, wAlertCount_notified,
            alookup_wNotifyInit_getD]
          exact mem_saddAll_left _ hmem
        · simp only [wSetPrev_notified, wStep4_notified, wNotify_notified,
            alookup_aset_ne _ _ _ _ hmm, wTrack_notified, wCallCount_notified,
            wFirstHash_notified, wLastHash_notified, wRemovedCount_notified,
            wAlertCount_notified, alookup_wNotifyInit_getD]
          exact hmem
    · -- step3 nonempty, step3b empty
      refine ⟨Nat.zero_le _, fun _ => trivial, fun hone => absurd hone (by omega), ?_⟩
      intro hmem
      by_cases hmm : m = modelIDOf inp
      · subst hmm
        simp only [wSetPrev_notified, wStep4_notified, wNotify_notified,
          alookup_aset_self, Option.getD_some, wTrack_notified,
          wCallCount_notified, wFirstHash_notified, wLastHash_notified,
          wRemovedCount_notified, wAlertCount_notified, alookup_wNotifyInit_getD]
        exact mem_saddAll_left _ hmem
      · simp only [wSetPrev_notified, wStep4_notified, wNotify_notified,
          alookup_aset_ne _ _ _ _ hmm, wTrack_notified, wCallCount_notified,
          wFirstHash_notified, wLastHash_notified, wRemovedCount_notified,
          wAlertCount_notified, alookup_wNotifyInit_getD]
        exact hmem
    · -- step3 nonempty, step3b nonempty
      refine ⟨alertEventCount_single_le _ _ _, ?_, ?_, ?_⟩
      · intro hmem
        apply alertEventCount_single_zero
        rw [Bool.eq_false_iff]
        rw [Ne, eventMentionsAlert_notice_iff]
        rintro ⟨hmm, a, ha, hasig⟩
        subst hmm
        rw [List.mem_filter] at ha
        obtain ⟨-, hcond⟩ := ha
        rw [hasig] at hcond
        simp only [wNotify_notified, alookup_aset_self, Option.getD_some,
          wTrack_notified, wCallCount_notified, wFirstHash_notified,
          wLastHash_notified, wRemovedCount_notified, wAlertCount_notified,
          alookup_wNotifyInit_getD, Bool.not_eq_eq_eq_not, Bool.not_true,
          decide_eq_false_iff_not] at hcond
        exact hcond (mem_saddAll_left _ hmem)
      · intro hone
        rw [alertEventCount_single_pos, eventMentionsAlert_notice_iff] at hone
        obtain ⟨hmm, a, ha, hasig⟩ := hone
        subst hmm
        simp only [wNotify_notified, alookup_aset_self, Option.getD_some,
          wTrack_notified, wCallCount_notified, wFirstHash_notified,
          wLastHash_notified, wRemovedCount_notified, wAlertCount_notified,
          alookup_wNotifyInit_getD] at ha
        simp only [wSetPrev_notified, wStep4_notified, wNotify_notified,
          alookup_aset_self, Option.getD_some, wTrack_notified,
          wCallCount_notified, wFirstHash_notified, wLastHash_notified,
          wRemovedCount_notified, wAlertCount_notified, alookup_wNotifyInit_getD]
        exact mem_saddAll_right _ (List.mem_map.2 ⟨a, ha, by rw [hasig]⟩)
      · intro hmem
        by_cases hmm : m = modelIDOf inp
        · subst hmm
          simp only [wSetPrev_notified, wStep4_notified, wNotify_notified,
            alookup_aset_self, Option.getD_some, wTrack_notified,
            wCallCount_notified, wFirstHash_notified, wLastHash_notified,
            wRemovedCount_notified, wAlertCount_notified,
            alookup_wNotifyInit_getD]
          exact mem_saddAll_left _ (mem_saddAll_left _ hmem)
        · simp only [wSetPrev_notified, wStep4_notified, wNotify_notified,
            alookup_aset_ne _ _ _ _ hmm, wTrack_notified, wCallCount_notified,
            wFirstHash_notified, wLastHash_notified, wRemovedCount_notified,
            wAlertCount_notified, alookup_wNotifyInit_getD]
          exact hmem

theorem watchdogTransform_inv (st : WState) (inp : WInput)
    (hInv : wInv st) : wInv (watchdogTransform st inp).1 := by
  unfold watchdogTransform
  cases hs : inp.sessionID with
  | none => exact hInv
  | some sid =>
    dsimp only
    split
    · exact hInv
    · exact watchdogStep_inv st inp sid hInv

theorem watchdogTransform_removed (st : WState) (inp : WInput) (m sig : Str)
    (hInv : wInv st) :
    removedEventCount (watchdogTransform st inp).2.1 m sig ≤ 1 ∧
    (removedKeyOf sig ∈ (alookup st.notifiedTemporalLines m).getD [] →
      removedEventCount (watchdogTransform st inp).2.1 m sig = 0) ∧
    (1 ≤ removedEventCount (watchdogTransform st inp).2.1 m sig →
      removedKeyOf sig ∈
        (alookup (watchdogTransform st inp).1.notifiedTemporalLines m).getD []) ∧
    (removedKeyOf sig ∈ (alookup st.notifiedTemporalLines m).getD [] →
      removedKeyOf sig ∈
        (alookup (watchdogTransform st inp).1.notifiedTemporalLines m).getD []) := by
  unfold watchdogTransform
  cases hs : inp.sessionID with
  | none =>
    exact ⟨Nat.zero_le _, fun _ => rfl,
      fun hone => absurd hone (Nat.not_succ_le_zero 0), fun h => h⟩
  | some sid =>
    dsimp only
    split
    · exact ⟨Nat.zero_le _, fun _ => rfl,
        fun hone => absurd hone (Nat.not_succ_le_zero 0), fun h => h⟩
    · exact watchdogStep_removed st inp sid m sig hInv

theorem watchdogTransform_alert (st : WState) (inp : WInput) (m sig : Str)
    (hInv : wInv st) :
    alertEventCount (watchdogTransform st inp).2.1 m sig ≤ 1 ∧
    (alertKeyOf sig ∈ (alookup st.notifiedTemporalLines m).getD [] →
      alertEventCount (watchdogTransform st inp).2.1 m sig = 0) ∧
    (1 ≤ alertEventCount (watchdogTransform st inp).2.1 m sig →
      alertKeyOf sig ∈
        (alookup (watchdogTransform st inp).1.notifiedTemporalLines m).getD []) ∧
    (alertKeyOf sig ∈ (alookup st.notifiedTemporalLines m).getD [] →
      alertKeyOf sig ∈
        (alookup (watchdogTransform st inp).1.notifiedTemporalLines m).getD []) := by
  unfold watchdogTransform
  cases hs : inp.sessionID with
  | none =>
    exact ⟨Nat.zero_le _, fun _ => rfl,
      fun hone => absurd hone (Nat.not_succ_le_zero 0), fun h => h⟩
  | some sid =>
    dsimp only
    split
    · exact ⟨Nat.zero_le _, fun _ => rfl,
        fun hone => absurd hone (Nat.not_succ_le_zero 0), fun h => h⟩
    · exact watchdogStep_alert st inp sid m sig hInv

theorem watchdogRunFrom_removed (is : List WInput) (st : WState) (m sig : Str)
    (hInv : wInv st) :
    removedEventCount (watchdogRunFrom st is).2 m sig ≤ 1 ∧
    (removedKeyOf sig ∈ (alookup st.notifiedTemporalLines m).getD [] →
      removedEventCount (watchdogRunFrom st is).2 m sig = 0) := by
  induction is generalizing st with
  | nil => exact ⟨Nat.zero_le _, fun _ => rfl⟩
  | cons i is ih =>
    obtain ⟨hle, hzero, hpos, hpersist⟩ := watchdogTransform_removed st i m sig hInv
    have hInv2 := watchdogTransform_inv st i hInv
    obtain ⟨ihle, ihzero⟩ := ih (watchdogTransform st i).1 hInv2
    unfold watchdogRunFrom
    dsimp only
    rw [removedEventCount_append]
    constructor
    · by_cases hmem : removedKeyOf sig ∈ (alookup st.notifiedTemporalLines m).getD []
      · rw [hzero hmem, ihzero (hpersist hmem)]
        omega
      · by_cases hone : 1 ≤ removedEventCount (watchdogTransform st i).2.1 m sig
        · rw [ihzero (hpos hone)]
          omega
        · have h0 : removedEventCount (watchdogTransform st i).2.1 m sig = 0 := by
            omega
          rw [h0]
          omega
    · intro hmem
      rw [hzero hmem, ihzero (hpersist hmem)]

theorem watchdogRunFrom_alert (is : List WInput) (st : WState) (m sig : Str)
    (hInv : wInv st) :
    alertEventCount (watchdogRunFrom st is).2 m sig ≤ 1 ∧
    (alertKeyOf sig ∈ (alookup st.notifiedTemporalLines m).getD [] →
      alertEventCount (watchdogRunFrom st is).2 m sig = 0) := by
  induction is generalizing st with
  | nil => exact ⟨Nat.zero_le _, fun _ => rfl⟩
  | cons i is ih =>
    obtain ⟨hle, hzero, hpos, hpersist⟩ := watchdogTransform_alert st i m sig hInv
    have hInv2 := watchdogTransform_inv st i hInv
    obtain ⟨ihle, ihzero⟩ := ih (watchdogTransform st i).1 hInv2
    unfold watchdogRunFrom
    dsimp only
    rw [alertEventCount_append]
    constructor
    · by_cases hmem : alertKeyOf sig ∈ (alookup st.notifiedTemporalLines m).getD []
      · rw [hzero hmem, ihzero (hpersist hmem)]
        omega
      · by_cases hone : 1 ≤ alertEventCount (watchdogTransform st i).2.1 m sig
        · rw [ihzero (hpos hone)]
          omega
        · have h0 : alertEventCount (watchdogTransform st i).2.1 m sig = 0 := by
            omega
          rw [h0]
          omega
    · intro hmem
      rw [hzero hmem, ihzero (hpersist hmem)]

/-- C5: over the lifetime of the runtime process (any sequence of hook
invocations from the initial module state), each agent identity is notified
of a given temporal-line content signature at most once in the `removed`
namespace and at most once in the `temporal-alert` namespace; the two
namespaces use distinct key strings for every pair of signatures, so a
notice of one kind can never suppress (or be suppressed by) a notice of
the other kind. -/
theorem c5_signature_notified_once (is : List WInput) (m sig sig' : Str) :
    removedEventCount (watchdogRun is).2 m sig ≤ 1 ∧
    alertEventCount (watchdogRun is).2 m sig ≤ 1 ∧
    removedKeyOf sig ≠ alertKeyOf sig' := by
  refine ⟨(watchdogRunFrom_removed is initialWState m sig wInv_initial).1,
    (watchdogRunFrom_alert is initialWState m sig wInv_initial).1, ?_⟩
  intro h
  have h1 : (removedKeyOf sig).head? = some 'r' := rfl
  have h2 : (alertKeyOf sig').head? = some 't' := rfl
  rw [h, h2] at h1
  exact absurd h1 (by decide)

theorem strLt_irrefl (s : Str) : strLt s s = false := by
  induction s with
  | nil => rfl
  | cons c cs ih => simp [strLt, ih]

theorem sortByKey_of_sorted {α : Type} (m : List (Str × α))
    (h : List.Pairwise (fun a b => strLt a.1 b.1 = true) m) :
    sortByKey m = m := by
  induction m with
  | nil => rfl
  | cons p rest ih =>
    rw [List.pairwise_cons] at h
    rw [sortByKey, ih h.2]
    cases rest with
    | nil => rfl
    | cons q t =>
      unfold insertSortedKV
      rw [if_pos (h.1 q (List.mem_cons_self q t))]

theorem hexValC_hexDigitC : ∀ k : Nat, k < 16 → hexValC (hexDigitC k) = some k := by
  decide

theorem hex4Val_hex4 (n : Nat) (h : n < 0x10000) (r : Str) :
    hex4Val (hex4 n ++ r) = some (n, r) := by
  show hex4Val (hexDigitC (n / 4096 % 16) :: hexDigitC (n / 256 % 16) ::
    hexDigitC (n / 16 % 16) :: hexDigitC (n % 16) :: r) = some (n, r)
  unfold hex4Val
  dsimp only
  rw [hexValC_hexDigitC _ (Nat.mod_lt _ (by norm_num)),
    hexValC_hexDigitC _ (Nat.mod_lt _ (by norm_num)),
    hexValC_hexDigitC _ (Nat.mod_lt _ (by norm_num)),
    hexValC_hexDigitC _ (Nat.mod_lt _ (by norm_num))]
  dsimp only
  have : ((n / 4096 % 16 * 16 + n / 256 % 16) * 16 + n / 16 % 16) * 16 + n % 16 = n := by
    omega
  rw [this]

theorem pStrF_u_step (f : Nat) (c : Char) (cs rest tail : Str)
    (hlow : c.toNat < 0xd800)
    (htail : pStrF f tail = some (cs, rest)) :
    pStrF (f + 1) ('\\' :: 'u' :: (hex4 c.toNat ++ tail)) = some (c :: cs, rest) := by
  have h16 : c.toNat < 0x10000 := by omega
  simp only [pStrF]
  rw [if_neg (show ¬('\\' = dquote) by decide), if_pos trivial,
    if_neg (show ¬((decide ('u' = dquote) || decide ('u' = '\\') ||
      decide ('u' = '/')) = true) by decide),
    if_neg (show ¬('u' = 'b') by decide), if_neg (show ¬('u' = 'f') by decide),
    if_neg (show ¬('u' = 'n') by decide), if_neg (show ¬('u' = 'r') by decide),
    if_neg (show ¬('u' = 't') by decide), if_pos trivial,
    hex4Val_hex4 c.toNat h16]
  dsimp only
  rw [if_neg (show ¬((decide (55296 ≤ c.toNat) &&
      decide (c.toNat < 56320)) = true) by
    intro hcon
    rw [Bool.and_eq_true, decide_eq_true_eq, decide_eq_true_eq] at hcon
    omega)]
  rw [if_neg (show ¬((decide (56320 ≤ c.toNat) &&
      decide (c.toNat < 57344)) = true) by
    intro hcon
    rw [Bool.and_eq_true, decide_eq_true_eq, decide_eq_true_eq] at hcon
    omega)]
  rw [htail]
  dsimp only [Option.map]
  rw [Char.ofNat_toNat]

theorem pStrF_complete (s : Str) : ∀ (fuel : Nat) (rest : Str),
    s.length + 1 ≤ fuel →
    pStrF fuel (escStr s ++ dquote :: rest) = some (s, rest) := by
  induction s with
  | nil =>
    intro fuel rest hf
    obtain ⟨f, rfl⟩ : ∃ f, fuel = f + 1 := ⟨fuel - 1, by omega⟩
    show pStrF (f + 1) (dquote :: rest) = some ([], rest)
    simp [pStrF]
  | cons c cs ih =>
    intro fuel rest hf
    obtain ⟨f, rfl⟩ : ∃ f, fuel = f + 1 := ⟨fuel - 1, by omega⟩
    have hrec := ih f rest (by simp only [List.length_cons] at hf; omega)
    have hstep : escStr (c :: cs) ++ dquote :: rest =
        escChar c ++ (escStr cs ++ dquote :: rest) := by
      simp [escStr, List.append_assoc]
    rw [hstep]
    by_cases h1 : c = dquote
    · subst h1
      rw [show escChar dquote = ['\\', dquote] from rfl]
      simp only [List.cons_append, List.nil_append]
      simp [pStrF, hrec]
      rw [if_neg (show ¬('\\' = dquote) by decide),
        if_neg (show ¬(dquote = '/') by decide)]
    · by_cases h2 : c = '\\'
      · subst h2
        rw [show escChar '\\' = ['\\', '\\'] from rfl]
        simp only [List.cons_append, List.nil_append]
        simp [pStrF, hrec]
        decide
      · by_cases h3 : c = '\n'
        · subst h3
          rw [show escChar '\n' = ['\\', 'n'] from rfl]
          simp only [List.cons_append, List.nil_append]
          simp [pStrF, hrec]
          rw [if_neg (show ¬('\\' = dquote) by decide),
            if_neg (show ¬('n' = dquote) by decide)]
        · by_cases h4 : c = '\x0d'
          · subst h4
            rw [show escChar '\x0d' = ['\\', 'r'] from rfl]
            simp only [List.cons_append, List.nil_append]
            simp [pStrF, hrec]
            rw [if_neg (show ¬('\\' = dquote) by decide),
              if_neg (show ¬('r' = dquote) by decide)]
          · by_cases h5 : c = '\t'
            · subst h5
              rw [show escChar '\t' = ['\\', 't'] from rfl]
              simp only [List.cons_append, List.nil_append]
              simp [pStrF, hrec]
              rw [if_neg (show ¬('\\' = dquote) by decide),
                if_neg (show ¬('t' = dquote) by decide)]
            · by_cases h6 : c.toNat < 32
              · have hesc : escChar c = '\\' :: 'u' :: hex4 c.toNat := by
                  unfold escChar
                  rw [if_neg h1, if_neg h2, if_neg h3, if_neg h4, if_neg h5,
                    if_pos h6]
                rw [hesc, List.cons_append, List.cons_append]
                exact pStrF_u_step f c cs rest _ (by omega) hrec
              · by_cases h7a : c = '<'
                · subst h7a
                  rw [show escChar '<' = '\\' :: 'u' :: hex4 ('<'.toNat) from rfl,
                    List.cons_append, List.cons_append]
                  exact pStrF_u_step f '<' cs rest _ (by decide) hrec
                · by_cases h7b : c = '>'
                  · subst h7b
                    rw [show escChar '>' = '\\' :: 'u' :: hex4 ('>'.toNat) from rfl,
                      List.cons_append, List.cons_append]
                    exact pStrF_u_step f '>' cs rest _ (by decide) hrec
                  · by_cases h7c : c = '&'
                    · subst h7c
                      rw [show escChar '&' = '\\' :: 'u' :: hex4 ('&'.toNat) from rfl,
                        List.cons_append, List.cons_append]
                      exact pStrF_u_step f '&' cs rest _ (by decide) hrec
                    · by_cases h8 : c.toNat = 0x2028 ∨ c.toNat = 0x2029
                      · have hesc : escChar c = '\\' :: 'u' :: hex4 c.toNat := by
                          unfold escChar
                          rw [if_neg h1, if_neg h2, if_neg h3, if_neg h4,
                            if_neg h5, if_neg h6,
                            if_neg (show ¬((decide (c = '<') || decide (c = '>') ||
                              decide (c = '&')) = true) by
                                simp [h7a, h7b, h7c]),
                            if_pos (show (decide (c.toNat = 0x2028) ||
                              decide (c.toNat = 0x2029)) = true by
                                rcases h8 with h8 | h8 <;> simp [h8])]
                        rw [hesc, List.cons_append, List.cons_append]
                        exact pStrF_u_step f c cs rest _ (by omega) hrec
                      · have hesc : escChar c = [c] := by
                          unfold escChar
                          rw [if_neg h1, if_neg h2, if_neg h3, if_neg h4,
                            if_neg h5, if_neg h6,
                            if_neg (show ¬((decide (c = '<') || decide (c = '>') ||
                              decide (c = '&')) = true) by
                                simp [h7a, h7b, h7c]),
                            if_neg (show ¬((decide (c.toNat = 0x2028) ||
                              decide (c.toNat = 0x2029)) = true) by
                                simp only [Bool.or_eq_true, decide_eq_true_eq]
                                exact h8)]
                        rw [hesc, List.cons_append, List.nil_append]
                        simp only [pStrF]
                        rw [if_neg h1, if_neg h2, if_neg h6, hrec]
                        rfl

theorem escChar_length_pos (c : Char) : 1 ≤ (escChar c).length := by
  unfold escChar
  repeat' split
  all_goals simp [hex4]

theorem escStr_length_ge (s : Str) : s.length ≤ (escStr s).length := by
  induction s with
  | nil => simp [escStr]
  | cons c cs ih =>
    have h1 := escChar_length_pos c
    have h2 : escStr (c :: cs) = escChar c ++ escStr cs := by
      simp [escStr]
    rw [h2, List.length_append, List.length_cons]
    omega

theorem pStr_complete (k rest : Str) :
    pStr (escStr k ++ dquote :: rest) = some (k, rest) := by
  unfold pStr
  apply pStrF_complete
  have := escStr_length_ge k
  rw [List.length_append, List.length_cons]
  omega

theorem alookup_append {α : Type} (a b : List (Str × α)) (k : Str) :
    alookup (a ++ b) k =
      match alookup a k with
      | some v => some v
      | none => alookup b k := by
  induction a with
  | nil => rfl
  | cons p t ih =>
    by_cases h : p.1 = k
    · show alookup (p :: (t ++ b)) k = _
      rw [show alookup (p :: (t ++ b)) k = if p.1 = k then some p.2
          else alookup (t ++ b) k from rfl,
        show alookup (p :: t) k = if p.1 = k then some p.2
          else alookup t k from rfl,
        if_pos h, if_pos h]
    · show alookup (p :: (t ++ b)) k = _
      rw [show alookup (p :: (t ++ b)) k = if p.1 = k then some p.2
          else alookup (t ++ b) k from rfl,
        show alookup (p :: t) k = if p.1 = k then some p.2
          else alookup t k from rfl,
        if_neg h, if_neg h, ih]

theorem aset_of_alookup_none {α : Type} (a : List (Str × α)) (k : Str) (v : α)
    (h : alookup a k = none) : aset a k v = a ++ [(k, v)] := by
  induction a with
  | nil => rfl
  | cons p t ih =>
    rw [show alookup (p :: t) k = if p.1 = k then some p.2
        else alookup t k from rfl] at h
    by_cases hk : p.1 = k
    · rw [if_pos hk] at h
      exact Option.noConfusion h
    · rw [if_neg hk] at h
      show aset (p :: t) k v = p :: (t ++ [(k, v)])
      rw [show aset ((p.1, p.2) :: t) k v = if p.1 = k then (p.1, v) :: t
          else (p.1, p.2) :: aset t k v from rfl] at *
      rw [if_neg hk, ih h]

theorem envFromJson_map (ps : List (Str × Str)) :
    envFromJson (ps.map (fun kv => (kv.1, Json.str kv.2))) = some ps := by
  induction ps with
  | nil => rfl
  | cons kv t ih =>
    show (envFromJson (t.map (fun kv => (kv.1, Json.str kv.2)))).map
      (fun e => (kv.1, kv.2) :: e) = some (kv :: t)
    rw [ih]
    rfl

theorem memberText_len (ps : List (Str × Str)) :
    ps.length ≤ ((List.intersperse [','] (ps.map (fun kv =>
      quoteStr kv.1 ++ ':' :: quoteStr kv.2))).flatten).length := by
  induction ps with
  | nil => simp
  | cons kv t ih =>
    cases t with
    | nil => simp [quoteStr]
    | cons kv2 t2 =>
      rw [List.map_cons, List.map_cons, List.intersperse_cons_cons,
        List.flatten_cons, List.flatten_cons]
      rw [List.map_cons] at ih
      simp only [List.length_append, List.length_cons] at *
      omega

theorem skipWsJ_cons_of (c : Char) (s : Str) (h : isJsonWs c = false) :
    skipWsJ (c :: s) = c :: s := by
  simp [skipWsJ, List.dropWhile, h]

theorem pVal_str (f : Nat) (hf : 1 ≤ f) (v r : Str) :
    pVal f (dquote :: (escStr v ++ dquote :: r)) = some (Json.str v, r) := by
  obtain ⟨f2, rfl⟩ : ∃ f2, f = f2 + 1 := ⟨f - 1, by omega⟩
  simp only [pVal]
  rw [if_pos trivial, pStr_complete]
  rfl

theorem flatten_intersperse_cons (x : Str) (xs : List Str) :
    ∃ tl, (List.intersperse ([','] : Str) (x :: xs)).flatten = x ++ tl := by
  cases xs with
  | nil => exact ⟨[], by simp⟩
  | cons y ys =>
    exact ⟨_, by rw [List.intersperse_cons_cons, List.flatten_cons]⟩

theorem pObjM_complete (ps : List (Str × Str)) :
    ∀ (acc : List (Str × Json)) (fuel : Nat),
    ps.length + 1 ≤ fuel → ps ≠ [] →
    (∀ kv ∈ ps, alookup acc kv.1 = none) →
    List.Pairwise (fun a b => a.1 ≠ b.1) ps →
    pObjM fuel
      ((List.intersperse [','] (ps.map (fun kv =>
        quoteStr kv.1 ++ ':' :: quoteStr kv.2))).flatten ++ [rbrace]) acc =
    some (.obj (acc ++ ps.map (fun kv => (kv.1, Json.str kv.2))), []) := by
  induction ps with
  | nil => intro _ _ _ hne _ _; exact absurd rfl hne
  | cons kv t ih =>
    intro acc fuel hfuel _ hdisj hnodup
    obtain ⟨f, rfl⟩ : ∃ f, fuel = f + 1 := ⟨fuel - 1, by omega⟩
    have hf1 : 1 ≤ f := by simp only [List.length_cons] at hfuel; omega
    have hkey := hdisj kv (List.mem_cons_self kv t)
    cases t with
    | nil =>
      have htext : ((List.intersperse [','] ((kv :: ([] : List (Str × Str))).map
          (fun kv => quoteStr kv.1 ++ ':' :: quoteStr kv.2))).flatten ++ [rbrace]) =
          dquote :: (escStr kv.1 ++ dquote ::
            (':' :: (dquote :: (escStr kv.2 ++ dquote :: [rbrace])))) := by
        simp [quoteStr]
      rw [htext]
      simp only [pObjM]
      rw [if_neg (show ¬((decide (dquote = rbrace) && acc.isEmpty) = true) by
          rw [show decide (dquote = rbrace) = false from by decide,
            Bool.false_and]
          exact Bool.false_ne_true), if_pos trivial, pStr_complete]
      conv_lhs => whnf
      rw [skipWsJ_cons_of dquote _ (by decide), pVal_str f hf1]
      conv_lhs => whnf
      rw [aset_of_alookup_none _ _ _ hkey]
      simp
    | cons kv2 t2 =>
      have htext : ((List.intersperse [','] ((kv :: kv2 :: t2).map
          (fun kv => quoteStr kv.1 ++ ':' :: quoteStr kv.2))).flatten ++
            [rbrace]) =
          dquote :: (escStr kv.1 ++ dquote :: ':' :: dquote ::
            (escStr kv.2 ++ dquote :: ',' ::
              ((List.intersperse [','] ((kv2 :: t2).map (fun kv =>
                quoteStr kv.1 ++ ':' :: quoteStr kv.2))).flatten ++
                  [rbrace]))) := by
        rw [List.map_cons, List.map_cons, List.intersperse_cons_cons,
          List.flatten_cons, List.flatten_cons]
        simp [quoteStr, List.append_assoc]
      rw [htext]
      simp only [pObjM]
      rw [if_neg (show ¬((decide (dquote = rbrace) && acc.isEmpty) = true) by
          rw [show decide (dquote = rbrace) = false from by decide,
            Bool.false_and]
          exact Bool.false_ne_true), if_pos trivial, pStr_complete]
      conv_lhs => whnf
      rw [skipWsJ_cons_of dquote _ (by decide), pVal_str f hf1]
      conv_lhs => whnf
      obtain ⟨tl, htl⟩ : ∃ tl, (List.intersperse [','] ((kv2 :: t2).map
          (fun kv => quoteStr kv.1 ++ ':' :: quoteStr kv.2))).flatten ++
            [rbrace] = dquote :: tl := by
        obtain ⟨tl0, htl0⟩ := flatten_intersperse_cons
          (quoteStr kv2.1 ++ ':' :: quoteStr kv2.2)
          ((t2).map (fun kv => quoteStr kv.1 ++ ':' :: quoteStr kv.2))
        rw [List.map_cons, htl0]
        refine ⟨((escStr kv2.1 ++ [dquote]) ++ ':' :: quoteStr kv2.2 ++ tl0) ++
          [rbrace], ?_⟩
        simp [quoteStr, List.append_assoc]
      rw [htl, skipWsJ_cons_of dquote _ (by decide)]
      conv_lhs => whnf
      rw [← htl, aset_of_alookup_none _ _ _ hkey]
      have hfuel2 : (kv2 :: t2).length + 1 ≤ f := by
        simp only [List.length_cons] at hfuel ⊢
        omega
      have hdisj2 : ∀ kv' ∈ kv2 :: t2,
          alookup (acc ++ [(kv.1, Json.str kv.2)]) kv'.1 = none := by
        intro kv' hkv'
        rw [alookup_append, hdisj kv' (List.mem_cons_of_mem _ hkv')]
        have hne := (List.pairwise_cons.mp hnodup).1 kv' hkv'
        show (if kv.1 = kv'.1 then some (Json.str kv.2)
          else alookup [] kv'.1) = none
        rw [if_neg hne]
        rfl
      rw [ih (acc ++ [(kv.1, Json.str kv.2)]) f hfuel2 (by simp) hdisj2
        (List.pairwise_cons.mp hnodup).2]
      simp

theorem envUnmarshal_envMarshal (m : List (Str × Str)) (hm : canonicalEnv m) :
    envUnmarshal (envMarshal m) = some m := by
  cases m with
  | nil => rfl
  | cons kv t =>
    have hsort : sortByKey (kv :: t) = kv :: t := sortByKey_of_sorted _ hm
    have hmemlen := memberText_len (kv :: t)
    have hnodup : List.Pairwise (fun a b : Str × Str => a.1 ≠ b.1) (kv :: t) := by
      refine hm.imp ?_
      intro a b hab heq
      rw [heq, strLt_irrefl] at hab
      exact Bool.false_ne_true hab
    unfold envUnmarshal jsonParse envMarshal
    rw [hsort]
    rw [List.cons_append, skipWsJ_cons_of lbrace _ (by decide)]
    simp only [pVal]
    rw [if_neg (show ¬(lbrace = dquote) by decide), if_pos trivial]
    obtain ⟨tl, htl⟩ : ∃ tl, (List.intersperse [','] ((kv :: t).map
        (fun kv => quoteStr kv.1 ++ ':' :: quoteStr kv.2))).flatten ++
          [rbrace] = dquote :: tl := by
      obtain ⟨tl0, htl0⟩ := flatten_intersperse_cons
        (quoteStr kv.1 ++ ':' :: quoteStr kv.2)
        (t.map (fun kv => quoteStr kv.1 ++ ':' :: quoteStr kv.2))
      rw [List.map_cons, htl0]
      refine ⟨((escStr kv.1 ++ [dquote]) ++ ':' :: quoteStr kv.2 ++ tl0) ++
        [rbrace], ?_⟩
      simp [quoteStr, List.append_assoc]
    rw [htl, skipWsJ_cons_of dquote _ (by decide), ← htl]
    have hfl : (kv :: t).length + 1 ≤ (lbrace ::
        ((List.intersperse [','] ((kv :: t).map
          (fun kv => quoteStr kv.1 ++ ':' :: quoteStr kv.2))).flatten ++
            [rbrace])).length := by
      simp only [List.length_cons, List.length_append] at hmemlen ⊢
      omega
    rw [pObjM_complete (kv :: t) [] _ hfl (by simp) (fun kv' _ => rfl) hnodup]
    exact envFromJson_map (kv :: t)

/-- C7: an instance inserted through `Store.Create` round-trips: an
immediate `Get` by id returns a record with the same `Name`, `Port` and
`EnvVars` and with `CreatedAt = UpdatedAt`; after an `Update` that sets
`Status` to `running` at a strictly later tick, `Get` shows
`Status = "running"` and `UpdatedAt` strictly later than `CreatedAt`. -/
theorem c7_store_roundtrip (db : StoreDB) (inst : Instance) (t1 t2 : Nat)
    (hcanon : canonicalEnv inst.envVars)
    (hfresh : db.any (fun r => r.id = inst.id || r.name = inst.name) = false)
    (ht : t1 < t2) :
    ∃ db1 i1,
      storeCreate db inst t1 = some (db1, i1) ∧
      (∃ g1, storeGet db1 inst.id = some g1 ∧
        g1.name = inst.name ∧ g1.port = inst.port ∧
        g1.envVars = inst.envVars ∧ g1.createdAt = g1.updatedAt) ∧
      (∃ g2, storeGet (storeUpdate db1
          { i1 with status := "running".data } t2).1 inst.id = some g2 ∧
        g2.status = "running".data ∧ g2.envVars = inst.envVars ∧
        g2.createdAt < g2.updatedAt) := by
  have hfresh' := List.any_eq_false.mp hfresh
  have hidne : ∀ r ∈ db, ¬(r.id = inst.id) := by
    intro r hr hid
    have h0 := hfresh' r hr
    simp only [Bool.or_eq_true, decide_eq_true_eq] at h0
    exact h0 (Or.inl hid)
  have hnone : db.find? (fun r => r.id = inst.id) = none := by
    rw [List.find?_eq_none]
    intro r hr hpr
    rw [decide_eq_true_eq] at hpr
    exact hidne r hr hpr
  refine ⟨db ++ [{
      id := inst.id, name := inst.name,
      containerID := inst.containerID, status := inst.status,
      errorMsg := inst.errorMsg, port := inst.port, workDir := inst.workDir,
      envVars := envMarshal inst.envVars, createdAt := t1, updatedAt := t1 }],
    { inst with createdAt := t1, updatedAt := t1 }, ?_, ?_, ?_⟩
  · unfold storeCreate
    dsimp only
    rw [hfresh]
    rfl
  · refine ⟨{ inst with createdAt := t1, updatedAt := t1 }, ?_, rfl, rfl, rfl, rfl⟩
    unfold storeGet
    rw [List.find?_append, hnone, Option.none_or,
      List.find?_cons_of_pos _ (by simp)]
    unfold scanInstanceRow
    dsimp only
    rw [envUnmarshal_envMarshal _ hcanon]
    rfl
  · unfold storeUpdate
    dsimp only
    rw [List.map_append]
    have hdbmap : db.map (fun r =>
        if r.id = inst.id then
          { r with
            name := inst.name, containerID := inst.containerID,
            status := "running".data, errorMsg := inst.errorMsg,
            port := inst.port, workDir := inst.workDir,
            envVars := envMarshal inst.envVars, updatedAt := t2 }
        else r) = db := by
      have hcong : ∀ r ∈ db, (if r.id = inst.id then
          { r with
            name := inst.name, containerID := inst.containerID,
            status := "running".data, errorMsg := inst.errorMsg,
            port := inst.port, workDir := inst.workDir,
            envVars := envMarshal inst.envVars, updatedAt := t2 }
          else r) = id r := by
        intro r hr
        rw [if_neg (hidne r hr)]
        rfl
      rw [List.map_congr_left hcong, List.map_id]
    rw [hdbmap]
    refine ⟨{ inst with
      status := "running".data, createdAt := t1, updatedAt := t2 },
      ?_, rfl, rfl, ht⟩
    unfold storeGet
    rw [List.find?_append, hnone, Option.none_or]
    dsimp only [List.map_cons, List.map_nil]
    rw [if_pos rfl, List.find?_cons_of_pos _ (by simp)]
    unfold scanInstanceRow
    dsimp only
    rw [envUnmarshal_envMarshal _ hcanon]
    rfl

def c7Inst : Instance :=
  { id := "i1".data, name := "demo".data, containerID := [],
    status := "creating".data, errorMsg := [], port := 10005,
    workDir := "/w".data, envVars := [("A".data, "b".data)],
    createdAt := 0, updatedAt := 0 }

/-- Witness for C7: the concrete round-trip of the spec scenario
(`Name="demo"`, `Port=10005`, `EnvVars={"A":"b"}`). -/
theorem c7_store_roundtrip_witness :
    ∃ db1 i1,
      storeCreate [] c7Inst 1 = some (db1, i1) ∧
      (∃ g1, storeGet db1 c7Inst.id = some g1 ∧
        g1.name = c7Inst.name ∧ g1.port = c7Inst.port ∧
        g1.envVars = c7Inst.envVars ∧ g1.createdAt = g1.updatedAt) ∧
      (∃ g2, storeGet (storeUpdate db1
          { i1 with status := "running".data } 2).1 c7Inst.id = some g2 ∧
        g2.status = "running".data ∧ g2.envVars = c7Inst.envVars ∧
        g2.createdAt < g2.updatedAt) :=
  c7_store_roundtrip [] c7Inst 1 2
    (by unfold canonicalEnv c7Inst; exact List.pairwise_singleton _ _) rfl
    (by decide)

theorem SubStr.trans {a b c : Str} (h1 : SubStr a b) (h2 : SubStr b c) :
    SubStr a c := by
  rcases h1 with ⟨p1, q1, rfl⟩
  rcases h2 with ⟨p2, q2, rfl⟩
  exact ⟨p2 ++ p1, q1 ++ q2, by simp [List.append_assoc]⟩

theorem mem_insertSortedKV_self {α : Type} (p : Str × α) (l : List (Str × α)) :
    p ∈ insertSortedKV p l := by
  induction l with
  | nil => exact List.mem_singleton.2 rfl
  | cons q t ih =>
    unfold insertSortedKV
    split
    · exact List.mem_cons_self _ _
    · exact List.mem_cons_of_mem _ ih

theorem mem_insertSortedKV_of_mem {α : Type} (p : Str × α) {x : Str × α}
    {l : List (Str × α)} (h : x ∈ l) : x ∈ insertSortedKV p l := by
  induction l with
  | nil => cases h
  | cons q t ih =>
    unfold insertSortedKV
    split
    · exact List.mem_cons_of_mem _ h
    · rcases List.mem_cons.1 h with rfl | h'
      · exact List.mem_cons_self _ _
      · exact List.mem_cons_of_mem _ (ih h')

theorem mem_sortByKey_of_mem {α : Type} {x : Str × α} {l : List (Str × α)}
    (h : x ∈ l) : x ∈ sortByKey l := by
  induction l with
  | nil => cases h
  | cons p t ih =>
    rcases List.mem_cons.1 h with rfl | h'
    · exact mem_insertSortedKV_self _ _
    · exact mem_insertSortedKV_of_mem _ (ih h')

theorem mem_aset_self {α : Type} (l : List (Str × α)) (k : Str) (v : α) :
    (k, v) ∈ aset l k v := by
  induction l with
  | nil => exact List.mem_singleton.2 rfl
  | cons p t ih =>
    show (k, v) ∈ (if p.1 = k then (p.1, v) :: t else (p.1, p.2) :: aset t k v)
    split
    · rename_i h
      rw [h]
      exact List.mem_cons_self _ _
    · exact List.mem_cons_of_mem _ ih

theorem aset_ne_nil {α : Type} (l : List (Str × α)) (k : Str) (v : α) :
    aset l k v ≠ [] := by
  cases l with
  | nil => simp [aset]
  | cons p t =>
    show (if p.1 = k then (p.1, v) :: t else (p.1, p.2) :: aset t k v) ≠ []
    split <;> simp

theorem marshalI_arr_ne (f lvl : Nat) (l : List Json) (h : l ≠ []) :
    marshalI (f + 1) lvl (.arr l) = '[' :: '\n' ::
      (List.intersperse (",\n".data) (l.map (fun x =>
        indentOf (lvl + 1) ++ marshalI f (lvl + 1) x))).flatten ++
      '\n' :: indentOf lvl ++ [']'] := by
  cases l with
  | nil => exact absurd rfl h
  | cons a t => rfl

theorem marshalI_obj_ne (f lvl : Nat) (l : List (Str × Json)) (h : l ≠ []) :
    marshalI (f + 1) lvl (.obj l) = lbrace :: '\n' ::
      (List.intersperse (",\n".data) ((sortByKey l).map (fun kv =>
        indentOf (lvl + 1) ++ quoteStr kv.1 ++ ':' :: ' ' ::
          marshalI f (lvl + 1) kv.2))).flatten ++
      '\n' :: indentOf lvl ++ [rbrace] := by
  cases l with
  | nil => exact absurd rfl h
  | cons a t => rfl

theorem hasQuotedRef_marshal_aset (kvs : List (Str × Json)) (ex : List Json)
    (m : Nat) :
    hasQuotedRef (marshalI (m + 3) 0 (Json.obj (aset kvs instructionsKey
      (Json.arr (ex ++ [Json.str instrPath]))))) instrPath = true := by
  have hescp : escStr instrPath = instrPath := by decide
  have hpat : dquote :: instrPath ++ [dquote] = quoteStr instrPath := by
    unfold quoteStr
    rw [hescp]
  have helem : SubStr (quoteStr instrPath)
      (marshalI (m + 2) 1 (Json.arr (ex ++ [Json.str instrPath]))) := by
    show SubStr (quoteStr instrPath)
      (marshalI ((m + 1) + 1) 1 (Json.arr (ex ++ [Json.str instrPath])))
    rw [marshalI_arr_ne (m + 1) 1 _ (by simp)]
    have hmm : (indentOf 2 ++ marshalI (m + 1) 2 (Json.str instrPath)) ∈
        (ex ++ [Json.str instrPath]).map (fun x =>
          indentOf 2 ++ marshalI (m + 1) 2 x) :=
      List.mem_map.2 ⟨Json.str instrPath,
        List.mem_append_right _ (List.mem_singleton.2 rfl), rfl⟩
    have hfl := subStr_flatten_intersperse (",\n".data) hmm
    have h0 : SubStr (quoteStr instrPath)
        (indentOf 2 ++ marshalI (m + 1) 2 (Json.str instrPath)) := by
      rw [show marshalI (m + 1) 2 (Json.str instrPath) = quoteStr instrPath
        from rfl]
      exact ⟨indentOf 2, [], by simp⟩
    refine SubStr.trans (SubStr.trans h0 hfl) ?_
    exact ⟨['[', '\n'], '\n' :: indentOf 1 ++ [']'], by simp⟩
  have hne := aset_ne_nil kvs instructionsKey
    (Json.arr (ex ++ [Json.str instrPath]))
  have hmem := mem_aset_self kvs instructionsKey
    (Json.arr (ex ++ [Json.str instrPath]))
  have hsub : SubStr (quoteStr instrPath)
      (marshalI (m + 3) 0 (Json.obj (aset kvs instructionsKey
        (Json.arr (ex ++ [Json.str instrPath]))))) := by
    show SubStr (quoteStr instrPath)
      (marshalI ((m + 2) + 1) 0 (Json.obj (aset kvs instructionsKey
        (Json.arr (ex ++ [Json.str instrPath])))))
    rw [marshalI_obj_ne (m + 2) 0 _ hne]
    have hx : (indentOf 1 ++ quoteStr instructionsKey ++ ':' :: ' ' ::
        marshalI (m + 2) 1 (Json.arr (ex ++ [Json.str instrPath]))) ∈
        (sortByKey (aset kvs instructionsKey
          (Json.arr (ex ++ [Json.str instrPath])))).map (fun kv =>
            indentOf 1 ++ quoteStr kv.1 ++ ':' :: ' ' ::
              marshalI (m + 2) 1 kv.2) :=
      List.mem_map.2 ⟨(instructionsKey,
        Json.arr (ex ++ [Json.str instrPath])),
        mem_sortByKey_of_mem hmem, rfl⟩
    have hfl2 := subStr_flatten_intersperse (",\n".data) hx
    have h2 : SubStr (quoteStr instrPath)
        (indentOf 1 ++ quoteStr instructionsKey ++ ':' :: ' ' ::
          marshalI (m + 2) 1 (Json.arr (ex ++ [Json.str instrPath]))) := by
      refine SubStr.trans helem
        ⟨indentOf 1 ++ quoteStr instructionsKey ++ [':', ' '], [], ?_⟩
      simp [List.append_assoc]
    refine SubStr.trans (SubStr.trans h2 hfl2) ?_
    exact ⟨[lbrace, '\n'], '\n' :: indentOf 0 ++ [rbrace], by simp⟩
  rw [← hpat] at hsub
  unfold hasQuotedRef
  rw [(containsSub_iff _ _).mpr hsub]
  rfl

theorem hasQuotedRef_marshal_patch (kvs : List (Str × Json)) (m : Nat) :
    hasQuotedRef (marshalI (m + 3) 0
      (Json.obj (patchInstructions instrPath kvs))) instrPath = true := by
  unfold patchInstructions
  exact hasQuotedRef_marshal_aset kvs _ m

/-- C8 (amended): whenever the first call of the instruction-registration
step does not panic (its stripped content is not a bare JSON `null`,
which would leave `cfg` a nil map and crash on the later assignment), one
call brings the file to a fixed point: the second call always returns
`unchanged` (either the original content already carried a quoted
reference or failed to parse — in which case the first call left it
untouched — or the first call wrote a marshalled config whose
`instructions` array contains the quoted path, which the second call's
quick check detects), so applying the step twice equals applying it
once. -/
theorem c8_registration_idempotent (c : Str)
    (hnp : ensureInstruction instrPath c ≠ EnsureOutcome.panicked) :
    ensureInstruction instrPath (applyEnsure instrPath c) =
      EnsureOutcome.unchanged ∧
    applyEnsure instrPath (applyEnsure instrPath c) = applyEnsure instrPath c := by
  have hmain : ensureInstruction instrPath (applyEnsure instrPath c) =
      EnsureOutcome.unchanged := by
    unfold applyEnsure
    cases hout : ensureInstruction instrPath c with
    | unchanged => exact hout
    | panicked => exact absurd hout hnp
    | written t =>
      have hq : hasQuotedRef t instrPath = true := by
        unfold ensureInstruction at hout
        by_cases hqr : hasQuotedRef c instrPath = true
        · rw [hqr, if_pos rfl] at hout
          exact EnsureOutcome.noConfusion hout
        · rw [Bool.not_eq_true] at hqr
          rw [hqr, if_neg Bool.false_ne_true] at hout
          dsimp only at hout
          split at hout
          · split at hout
            · exact EnsureOutcome.noConfusion hout
            · exact EnsureOutcome.noConfusion hout
            · have ht := (EnsureOutcome.written.injEq _ _).mp hout
              rw [← ht]
              exact hasQuotedRef_marshal_patch _ _
          · have ht := (EnsureOutcome.written.injEq _ _).mp hout
            rw [← ht]
            exact hasQuotedRef_marshal_patch [] 0
      unfold ensureInstruction
      rw [hq, if_pos rfl]
  refine ⟨hmain, ?_⟩
  rw [show applyEnsure instrPath (applyEnsure instrPath c) =
    (match ensureInstruction instrPath (applyEnsure instrPath c) with
      | .unchanged => applyEnsure instrPath c
      | .written t => t
      | .panicked => applyEnsure instrPath c) from rfl, hmain]

/-- Witness for C8 (amended): the empty content (missing file) does not
panic — the first call writes a fresh config and the file is a fixed
point afterwards. -/
theorem c8_registration_idempotent_witness :
    ensureInstruction instrPath ([] : Str) ≠ EnsureOutcome.panicked ∧
    (ensureInstruction instrPath (applyEnsure instrPath ([] : Str)) =
        EnsureOutcome.unchanged ∧
      applyEnsure instrPath (applyEnsure instrPath ([] : Str)) =
        applyEnsure instrPath ([] : Str)) :=
  ⟨by decide, c8_registration_idempotent ([] : Str) (by decide)⟩

def c8C : Str :=
  "\x7b\"instructions\": [\"/root/.config/opencode/_cloudcode-instructions.md\", \"/root/.config/opencode/_cloudcode-instructions.md\"]\x7d".data

/-- C8 (counterexample): a starting `opencode.jsonc` that already lists the
instructions path twice still lists it twice after applying the
registration step twice — the quick check sees the quoted path and leaves
the file alone, so the path does NOT end up appearing exactly once. -/
theorem c8_registration_counterexample :
    hasQuotedRef c8C instrPath = true ∧
    applyEnsure instrPath (applyEnsure instrPath c8C) = c8C ∧
    (∃ kvs, parseTopObj c8C = UnmarshalCfg.objMap kvs ∧
      countInstrPath instrPath kvs = 2) :=
  ⟨rfl, rfl, ⟨_, rfl, rfl⟩⟩

/-- C9 (amended): when the raw content carries no quoted reference and the
comment-stripped content is NONEMPTY and makes `json.Unmarshal` return an
error, `ensureInstruction` silently abandons the patch and leaves the
file unchanged.  (The nonemptiness condition is essential: an empty
stripped content also fails `json.Unmarshal`, yet the code takes the
fresh-config branch and writes the file; and a stripped content of bare
`null` is NOT an Unmarshal error — it leaves `cfg` a nil map and the
subsequent assignment panics — see the counterexample.) -/
theorem c9_parse_failure_amended (c : Str)
    (hq : hasQuotedRef c instrPath = false)
    (hne : stripJSONCComments c ≠ [])
    (hp : parseTopObj (stripJSONCComments c) = UnmarshalCfg.err) :
    ensureInstruction instrPath c = EnsureOutcome.unchanged := by
  unfold ensureInstruction
  rw [hq, if_neg Bool.false_ne_true]
  dsimp only
  rw [if_pos (by cases hstr : stripJSONCComments c with
    | nil => exact absurd hstr hne
    | cons a t => simp), hp]

def c9C : Str := "// note".data

def c9Null : Str := "null".data

/-- C9 (counterexample): a file holding only the line comment `// note`
has no quoted reference and its comment-stripped content (the empty
string) fails `json.Unmarshal`, yet `ensureInstruction` does NOT leave
the file alone: it takes the fresh-config branch and writes a brand-new
config.  And a file holding the bare document `null` does not fail to
parse at all: `json.Unmarshal` accepts it, `cfg` stays the nil map, and
the patch panics on the nil-map assignment instead of returning success. -/
theorem c9_parse_failure_counterexample :
    hasQuotedRef c9C instrPath = false ∧
    stripJSONCComments c9C = [] ∧
    parseTopObj (stripJSONCComments c9C) = UnmarshalCfg.err ∧
    ensureInstruction instrPath c9C =
      EnsureOutcome.written (marshalI 3 0
        (Json.obj (patchInstructions instrPath []))) ∧
    ensureInstruction instrPath c9C ≠ EnsureOutcome.unchanged ∧
    stripJSONCComments c9Null = c9Null ∧
    parseTopObj c9Null = UnmarshalCfg.nilMap ∧
    ensureInstruction instrPath c9Null = EnsureOutcome.panicked :=
  ⟨rfl, rfl, rfl, rfl, by decide, rfl, rfl, rfl⟩

/-- Witness for C9 (amended): the content `x` strips to itself (nonempty)
and fails to parse, and `ensureInstruction` leaves it unchanged. -/
theorem c9_parse_failure_witness :
    ensureInstruction instrPath ("x".data) = EnsureOutcome.unchanged :=
  c9_parse_failure_amended ("x".data) rfl (by decide) rfl
